import Mathlib

/-!
# Verification of the charmstore router (internal/router/router.go)

This file gives a shallow embedding of the request-routing and
metadata-batching core of the charmstore repository
(`src/internal/router/router.go`) and proves the frozen claims about it.

Modelling conventions:

* Go strings are embedded as `List Char` (`Str`).  Index arithmetic on Go
  strings becomes `List.take` / `List.drop` arithmetic.
* Go maps (`map[string]X`, `map[interface{}]Y`, `url.Values`) are embedded
  as association lists with the Go assignment `m[k] = v` embedded as a
  replace-or-append update (`setKey`), which has exactly the lookup
  semantics of the Go map.  Go's unspecified map iteration order in
  `GetMetadata` is fixed to first-appearance order of the group keys; this
  is one admissible Go execution, and the final result map is independent
  of the order because distinct groups bind disjoint include strings.
* `interface{}` results of metadata handlers are embedded as `GoValue`,
  which records the reflection data that `isNull` inspects (the nil
  interface, and the kind/nil-ness of a typed value).
* External collaborators (`charm.ParseReference`, the `resolveURL`
  callback, the `Handle` method of registered `BulkIncludeHandler`s and
  the registered `IdHandler`s) are opaque parameters collected in a
  `RouterEnv`; handlers are named by natural numbers.
* Fallible Go functions returning `(T, error)` become `Except GoErr T`.
* Calls of the batch operation `Handle` made by `GetMetadata` are recorded
  in a trace (`BatchCall`) so that "invoked exactly once" claims can be
  stated; the traced function `getMetadataT` is otherwise a literal
  translation of `GetMetadata`.
-/

/-- Go strings, embedded as lists of characters. -/
abbrev Str := List Char

instance instDecEqExcept {ε α : Type} [DecidableEq ε] [DecidableEq α] :
    DecidableEq (Except ε α) := fun x y =>
  match x, y with
  | .error a, .error b =>
    if h : a = b then isTrue (by rw [h]) else isFalse (fun hh => h (by injection hh))
  | .error _, .ok _ => isFalse (fun hh => Except.noConfusion hh)
  | .ok _, .error _ => isFalse (fun hh => Except.noConfusion hh)
  | .ok a, .ok b =>
    if h : a = b then isTrue (by rw [h]) else isFalse (fun hh => h (by injection hh))

/-- Convenience conversion from Lean string literals. -/
def strOf (s : String) : Str := s.toList

/-- Lookup in an association list; the embedding of a Go map read `m[k]`
(with `none` for a missing key). -/
def lookupKey {κ α : Type} [DecidableEq κ] : List (κ × α) → κ → Option α
  | [], _ => none
  | p :: rest, k => if p.1 = k then some p.2 else lookupKey rest k

/-- Replace-or-append update of an association list; the embedding of the
Go map assignment `m[k] = v` (last write wins). -/
def setKey {κ α : Type} [DecidableEq κ] : List (κ × α) → κ → α → List (κ × α)
  | [], k, v => [(k, v)]
  | p :: rest, k, v => if p.1 = k then (k, v) :: rest else p :: setKey rest k v

/-- The reflection kinds that `isNull` distinguishes (`reflect.Map`,
`reflect.Ptr`, `reflect.Slice`, and everything else). -/
inductive GoKind where
  | mapKind
  | ptrKind
  | sliceKind
  | otherKind
deriving DecidableEq

/-- An `interface{}` value as far as `isNull` can observe it: either the
nil interface, or a typed value with a reflection kind, a nil-ness bit
(meaningful for nilable kinds such as map/pointer/slice/func) and an
abstract payload distinguishing concrete values. -/
inductive GoValue where
  | goNil
  | typed (kind : GoKind) (nilV : Bool) (payload : Nat)
deriving DecidableEq

/-- Embeds `isNull` (router.go): reports whether the value will encode to
a null JSON value — the nil interface, or a nil map, pointer or slice. -/
def isNull : GoValue → Bool
  | .goNil => true
  | .typed kind nilV _ =>
    if kind ≠ .mapKind ∧ kind ≠ .ptrKind ∧ kind ≠ .sliceKind then false else nilV

/-- Go `error` values that flow through the router.  `errNotFound` and
`errDataNotFound` are the sentinel errors `ErrNotFound` ("not found") and
`ErrDataNotFound` ("metadata not found") that the router compares against
with `==`; `unrecognizedMetadataName` is the error built by
`fmt.Errorf("unrecognized metadata name %q", include)`; `noIdsSpecified`
is `fmt.Errorf("no ids specified in meta request")`; `parseErr` and
`collabErr` stand for arbitrary distinct errors produced by the external
collaborators (the charm-URL parser, the resolver, handlers), carrying
their message. -/
inductive GoErr where
  | errNotFound
  | errDataNotFound
  | unrecognizedMetadataName (inc : Str)
  | noIdsSpecified
  | parseErr (msg : Str)
  | collabErr (msg : Str)
deriving DecidableEq

/-- Models Go's `%q` quoting of a name: the string wrapped in double
quotes.  (Faithful to `fmt.Errorf("... %q", s)` for names that contain no
characters needing escapes, which covers every metadata name the router
is used with.) -/
def goQuote (s : Str) : Str := '"' :: (s ++ ['"'])

/-- The message of each embedded error value. -/
def errMessage : GoErr → Str
  | .errNotFound => strOf "not found"
  | .errDataNotFound => strOf "metadata not found"
  | .unrecognizedMetadataName inc => strOf "unrecognized metadata name " ++ goQuote inc
  | .noIdsSpecified => strOf "no ids specified in meta request"
  | .parseErr msg => msg
  | .collabErr msg => msg

/-- Does `n` match a leading segment of `h`? -/
def leadMatch : Str → Str → Bool
  | [], _ => true
  | _ :: _, [] => false
  | a :: as, b :: bs => a = b && leadMatch as bs

/-- Does the string `n` occur as a contiguous substring of `h`?  (Used to
state "the message contains ...".) -/
def hasSub (n : Str) : Str → Bool
  | [] => n.isEmpty
  | c :: t => leadMatch n (c :: t) || hasSub n t

/-- `url.Values`: a map from query-parameter name to list of values. -/
abbrev Form := List (Str × List Str)

/-- `req.Form[k]` — the (possibly empty) list of values of parameter `k`. -/
def formGet (form : Form) (k : Str) : List Str := (lookupKey form k).getD []

/-- `delete(req.Form, k)`. -/
def formDelete : Form → Str → Form
  | [], _ => []
  | p :: rest, k => if p.1 = k then formDelete rest k else p :: formDelete rest k

/-- `*charm.URL` values are opaque to the router (it only threads them
through to collaborators); we name them by natural numbers. -/
abbrev CharmURL := Nat

/-- The response value of `serveMeta` (`interface{}` in Go): the sorted
facet-name list (bare `meta`), a `params.MetaAnyResponse` (`meta/any`), or
a single facet result. -/
inductive MetaResponse where
  | names (ns : List Str)
  | metaAny (id : CharmURL) (meta : List (Str × GoValue))
  | single (v : GoValue)
deriving DecidableEq

/-- The environment of a `Router`: its registered handler tables and the
external collaborators.  `meta` embeds `Handlers.Meta` (facet key →
handler); a handler is named by a `Nat`.  `key h` embeds the handler's
`Key()` method (an opaque equality-comparable value, modelled as `Nat`);
`handle recv hs id paths flags` embeds the `Handle` method call
`recv.Handle(hs, id, paths, flags)` (with `flags = none` embedding a nil
`url.Values`).  `idHandlers`/`idHandle` embed `Handlers.Id`; `parseURL`
embeds `charm.ParseReference` (external); `resolveURL` embeds the
resolver callback given to `New` (external), returning the resolved URL
in place of Go's in-place mutation. -/
structure RouterEnv where
  meta : List (Str × Nat)
  key : Nat → Nat
  handle : Nat → List Nat → CharmURL → List Str → Option Form → Except GoErr (List GoValue)
  idHandlers : List (Str × Nat)
  idHandle : Nat → CharmURL → Str → Form → Except GoErr Unit
  parseURL : Str → Except GoErr CharmURL
  resolveURL : CharmURL → Except GoErr CharmURL

/-- `strings.Index(s, "/")` for the one-character separator: the index of
the first `'/'` in `s`, if any. -/
def slashIdx : Str → Option Nat
  | [] => none
  | c :: rest => if c = '/' then some 0 else (slashIdx rest).map (· + 1)

/-- The index-adjustment opening `splitPath`:
`if i < len(path) && path[i] == '/' { i++ }`.  (For `i ≥ path.length` the
default `' '` is never `'/'`, matching the Go short-circuit.) -/
def skipSlash (path : Str) (i : Nat) : Nat :=
  if path.getD i ' ' = '/' then i + 1 else i

/-- `path[i:]` after the leading-slash skip of `splitPath`. -/
def afterSkip (path : Str) (i : Nat) : Str := path.drop (skipSlash path i)

/-- Embeds `splitPath` (router.go): returns the first path element of
`path` starting at index `i0` (skipping one leading `'/'`) and the start
index of the next element (the index of the terminating `'/'`, or the
length of the path when there is no further `'/'`).  Go indexes the
string, so callers must have `i0 ≤ path.length` (Go panics otherwise). -/
def splitPath (path : Str) (i0 : Nat) : Str × Nat :=
  match slashIdx (afterSkip path i0) with
  | none => (afterSkip path i0, path.length)
  | some j => ((afterSkip path i0).take j, j + skipSlash path i0)

/-- The "/"-delimited element of `path` beginning at index `i` (after the
splitter's leading-slash skip): the characters up to the next `'/'`. -/
def elemAt (path : Str) (i : Nat) : Str :=
  (afterSkip path i).takeWhile (fun c => c != '/')

/-- `strings.TrimPrefix(path, "/")`: drop one leading slash. -/
def trimLeadSlash (p : Str) : Str :=
  match p with
  | c :: rest => if c = '/' then rest else c :: rest
  | [] => []

/-- `strings.TrimSuffix(path, "/")`: drop one trailing slash. -/
def trimTrailSlash (p : Str) : Str :=
  if p.getLast? = some '/' then p.dropLast else p

/-- Embeds `handlerKey` (router.go): the key used to look up a handler at
the given path, plus the remaining path elements.  The key is empty when
there is no possible key. -/
def handlerKey (path0 : Str) : Str × Str :=
  if (splitPath (trimLeadSlash path0) 0).1 = [] then ([], [])
  else if (splitPath (trimLeadSlash path0) 0).2 < (trimLeadSlash path0).length - 1 then
    ((trimLeadSlash path0).take ((splitPath (trimLeadSlash path0) 0).2 + 1),
      (trimLeadSlash path0).drop (splitPath (trimLeadSlash path0) 0).2)
  else ((splitPath (trimLeadSlash path0) 0).1, [])

/-- The fixed `knownSeries` set (router.go). -/
def knownSeries (s : Str) : Bool :=
  s = strOf "bundle" || s = strOf "precise" || s = strOf "quantal" ||
  s = strOf "raring" || s = strOf "saucy" || s = strOf "trusty" || s = strOf "utopic"

/-- Embeds `splitId` (router.go): split a path into the charm id prefix
(parsed by the external `parseURL` collaborator) and the rest of the
path. -/
def splitId (env : RouterEnv) (path0 : Str) : Except GoErr (CharmURL × Str) :=
  let path := trimLeadSlash path0
  let pi0 := splitPath path 0
  let pi1 := if pi0.1.head? = some '~' then splitPath path pi0.2 else pi0
  let pi2 := if knownSeries pi1.1 then splitPath path pi1.2 else pi1
  let urlStr := trimTrailSlash (path.take pi2.2)
  match env.parseURL urlStr with
  | .error e => .error e
  | .ok url => .ok (url, path.drop pi2.2)

/-- One recorded invocation `recv.Handle(handlers, id, paths, flags)` of a
group's batch operation, tagged with the group key it was made for. -/
structure BatchCall where
  gkey : Nat
  recv : Nat
  handlers : List Nat
  id : CharmURL
  paths : List Str
  flags : Option Form
deriving DecidableEq

/-- One group accumulated by `GetMetadata`'s first loop: the group key,
the handlers of the group (`groups[key]`) and the include names of the
group (`includesByGroup[key]`), both in request order.  The two Go maps
are always extended together under the same key, so they are embedded as
one association list. -/
abbrev MetaGroup := Nat × List Nat × List Str

/-- `groups[key] = append(groups[key], handler)` together with
`includesByGroup[key] = append(includesByGroup[key], include)`, with
first-appearance ordering of the keys. -/
def appendGroup : List MetaGroup → Nat → Nat → Str → List MetaGroup
  | [], k, h, inc => [(k, [h], [inc])]
  | (k0, hs, incs) :: rest, k, h, inc =>
    if k0 = k then (k0, hs ++ [h], incs ++ [inc]) :: rest
    else (k0, hs, incs) :: appendGroup rest k h inc

/-- The first loop of `GetMetadata`: for each include name compute its
handler key, look the handler up in `Handlers.Meta` (failing the whole
call with the "unrecognized metadata name" error if absent) and group it
under the handler's `Key()`. -/
def gatherGroups (env : RouterEnv) : List Str → List MetaGroup → Except GoErr (List MetaGroup)
  | [], acc => .ok acc
  | inc :: rest, acc =>
    match lookupKey env.meta (handlerKey inc).1 with
    | none => .error (.unrecognizedMetadataName inc)
    | some h => gatherGroups env rest (appendGroup acc (env.key h) h inc)

/-- The merging step of `GetMetadata`'s second loop:
`for i, result := range groupResults { if !isNull(result) {
results[groupIncludes[i]] = result } }`.  (When the handler returns more
results than includes Go would panic on the index; the zip is equivalent
to the Go loop whenever `groupResults` is no longer than
`groupIncludes`, which is the documented handler contract.) -/
def mergeResults (res : List (Str × GoValue)) (incs : List Str) (groupResults : List GoValue) :
    List (Str × GoValue) :=
  (incs.zip groupResults).foldl
    (fun r p => if isNull p.2 then r else setKey r p.1 p.2) res

/-- The second loop of `GetMetadata`: invoke each group's batch operation
once — `g[0].Handle(g, id, paths, nil)` with `paths` the include
sub-paths of the group — aborting on a group error, otherwise merging the
non-null results into the output map under the original include strings.
Each `Handle` invocation is recorded in the trace. -/
def runGroups (env : RouterEnv) (id : CharmURL) :
    List MetaGroup → List (Str × GoValue) → List BatchCall →
    Except GoErr (List (Str × GoValue)) × List BatchCall
  | [], res, tr => (.ok res, tr)
  | (k, hs, incs) :: rest, res, tr =>
    match env.handle (hs.headD 0) hs id (incs.map (fun inc => (handlerKey inc).2)) none with
    | .error e =>
      (.error e,
        tr ++ [⟨k, hs.headD 0, hs, id, incs.map (fun inc => (handlerKey inc).2), none⟩])
    | .ok groupResults =>
      runGroups env id rest (mergeResults res incs groupResults)
        (tr ++ [⟨k, hs.headD 0, hs, id, incs.map (fun inc => (handlerKey inc).2), none⟩])

/-- Embeds `GetMetadata` (router.go), additionally returning the trace of
batch-operation invocations it makes. -/
def getMetadataT (env : RouterEnv) (id : CharmURL) (includes : List Str) :
    Except GoErr (List (Str × GoValue)) × List BatchCall :=
  match gatherGroups env includes [] with
  | .error e => (.error e, [])
  | .ok gs => runGroups env id gs [] []

/-- Embeds `GetMetadata` (router.go): metadata for the given id as
specified by the includes slice. -/
def getMetadata (env : RouterEnv) (id : CharmURL) (includes : List Str) :
    Except GoErr (List (Str × GoValue)) :=
  (getMetadataT env id includes).1

/-- Lexicographic `≤` on strings (Go's `sort.Strings` order; UTF-8 byte
order agrees with code-point order). -/
def strLe : Str → Str → Bool
  | [], _ => true
  | _ :: _, [] => false
  | a :: as, b :: bs => if a < b then true else if b < a then false else strLe as bs

/-- Insertion into a sorted list. -/
def insertStr (s : Str) : List Str → List Str
  | [] => [s]
  | t :: rest => if strLe s t then s :: t :: rest else t :: insertStr s rest

/-- Insertion sort; embeds `sort.Strings`. -/
def sortStrs : List Str → List Str
  | [] => []
  | s :: rest => insertStr s (sortStrs rest)

/-- Embeds `metaNames` (router.go): the sorted names of the registered
metadata handlers, with trailing slashes stripped. -/
def metaNames (env : RouterEnv) : List Str :=
  sortStrs (env.meta.map (fun p => trimTrailSlash p.1))

/-- Embeds `serveMeta` (router.go).  `reqPath` is `req.URL.Path` (the
path below `id/meta`), `form` is `req.Form`.  `results[0]` of a
single-handler call is embedded with `headD` (Go would panic on an empty
result slice, which the handler contract rules out). -/
def serveMeta (env : RouterEnv) (id : CharmURL) (reqPath : Str) (form : Form) :
    Except GoErr MetaResponse :=
  if (handlerKey reqPath).1 = [] then .ok (.names (metaNames env))
  else if (handlerKey reqPath).1 = strOf "any" then
    match getMetadata env id (formGet form (strOf "include")) with
    | .error e => .error e
    | .ok meta => .ok (.metaAny id meta)
  else
    match lookupKey env.meta (handlerKey reqPath).1 with
    | some h =>
      match env.handle h [h] id [(handlerKey reqPath).2] (some form) with
      | .error e => .error e
      | .ok results =>
        if isNull (results.headD .goNil) then .error .errDataNotFound
        else .ok (.single (results.headD .goNil))
    | none => .error .errNotFound

/-- The loop body of `serveBulkMeta`, abstracted per supplied id string:
it is either silently omitted, fails the whole request, or contributes
its metadata result. -/
inductive BulkStep where
  | omitted
  | failedStep (e : GoErr)
  | kept (resp : MetaResponse)
deriving DecidableEq

/-- What `serveBulkMeta` does with one supplied id string (`form2` is the
request form with the "id" key deleted): parse it, resolve it (a
`ErrNotFound` resolution is omitted, any other resolution error fails the
request), dispatch the single-identifier metadata request (a
`ErrDataNotFound` result is omitted, any other error fails the
request). -/
def bulkClassify (env : RouterEnv) (reqPath : Str) (form2 : Form) (s : Str) : BulkStep :=
  match env.parseURL s with
  | .error e => .failedStep e
  | .ok url =>
    match env.resolveURL url with
    | .error .errNotFound => .omitted
    | .error e => .failedStep e
    | .ok url2 =>
      match serveMeta env url2 reqPath form2 with
      | .error .errDataNotFound => .omitted
      | .error e => .failedStep e
      | .ok resp => .kept resp

/-- The metadata result contributed by one supplied id string, when its
step neither fails nor is omitted. -/
def keptOf (env : RouterEnv) (reqPath : Str) (form2 : Form) (s : Str) : Option MetaResponse :=
  match bulkClassify env reqPath form2 s with
  | .kept resp => some resp
  | _ => none

/-- The loop of `serveBulkMeta` over the supplied id strings,
accumulating `result[id] = meta`. -/
def bulkLoop (env : RouterEnv) (reqPath : Str) (form2 : Form) :
    List Str → List (Str × MetaResponse) → Except GoErr (List (Str × MetaResponse))
  | [], res => .ok res
  | s :: rest, res =>
    match bulkClassify env reqPath form2 s with
    | .omitted => bulkLoop env reqPath form2 rest res
    | .failedStep e => .error e
    | .kept resp => bulkLoop env reqPath form2 rest (setKey res s resp)

/-- Embeds `serveBulkMeta` (router.go): the bulk metadata endpoint
`GET meta/$endpoint?id=$id0[&id=$id1...]`.  `reqPath` is the path below
`/meta`. -/
def serveBulkMeta (env : RouterEnv) (reqPath : Str) (form : Form) :
    Except GoErr (List (Str × MetaResponse)) :=
  let ids := formGet form (strOf "id")
  if ids = [] then .error .noIdsSpecified
  else bulkLoop env reqPath (formDelete form (strOf "id")) ids []

/-- The observable outcome of `serveIds` on success: the request was
dispatched to a registered id-rooted handler, or answered by the
metadata engine. -/
inductive ServeOutcome where
  | idHandled
  | metaResp (resp : MetaResponse)
deriving DecidableEq

/-- Embeds `serveIds` (router.go): strip a trailing slash, split off the
charm id, resolve it, and dispatch on the handler key of the rest of the
path (empty key: `ErrNotFound`; a registered id handler; else the `meta`
endpoints; else `ErrNotFound`). -/
def serveIds (env : RouterEnv) (reqPath : Str) (form : Form) : Except GoErr ServeOutcome :=
  match splitId env (trimTrailSlash reqPath) with
  | .error e => .error e
  | .ok ur =>
    match env.resolveURL ur.1 with
    | .error e => .error e
    | .ok url2 =>
      if (handlerKey ur.2).1 = [] then .error .errNotFound
      else
        match lookupKey env.idHandlers (handlerKey ur.2).1 with
        | some h =>
          match env.idHandle h url2 (handlerKey ur.2).2 form with
          | .error e => .error e
          | .ok _ => .ok .idHandled
        | none =>
          if (handlerKey ur.2).1 ≠ strOf "meta/" ∧ (handlerKey ur.2).1 ≠ strOf "meta"
          then .error .errNotFound
          else
            match serveMeta env url2 (handlerKey ur.2).2 form with
            | .error e => .error e
            | .ok resp => .ok (.metaResp resp)

/-- The handler that `GetMetadata` resolves for an include name: the
`Handlers.Meta` entry at the include's handler key. -/
def resolveH (env : RouterEnv) (inc : Str) : Option Nat :=
  lookupKey env.meta (handlerKey inc).1

/-- The group key an include name is batched under, when its handler is
registered. -/
def incKey (env : RouterEnv) (inc : Str) : Option Nat :=
  (resolveH env inc).map env.key

/-- The include names of the group with key `k`, in request order. -/
def groupIncludes (env : RouterEnv) (includes : List Str) (k : Nat) : List Str :=
  includes.filter (fun inc => incKey env inc = some k)

/-- The handlers of the group with key `k`, in request order. -/
def groupHandlers (env : RouterEnv) (includes : List Str) (k : Nat) : List Nat :=
  (groupIncludes env includes k).filterMap (resolveH env)

/-- The sub-paths of the group with key `k`, in request order. -/
def groupPaths (env : RouterEnv) (includes : List Str) (k : Nat) : List Str :=
  (groupIncludes env includes k).map (fun inc => (handlerKey inc).2)

/-- The batch-operation invocation that `runGroups` makes for a group. -/
def callOf (env : RouterEnv) (id : CharmURL) (g : MetaGroup) : Except GoErr (List GoValue) :=
  env.handle (g.2.1.headD 0) g.2.1 id (g.2.2.map (fun inc => (handlerKey inc).2)) none

/-- The trace record of the batch-operation invocation for a group. -/
def mkCall (id : CharmURL) (g : MetaGroup) : BatchCall :=
  ⟨g.1, g.2.1.headD 0, g.2.1, id, g.2.2.map (fun inc => (handlerKey inc).2), none⟩

/-- A non-null result value used by the concrete registries below. -/
def vOK : GoValue := .typed .otherKind false 0

/-- A concrete registry: two metadata handlers `"s"` (handler 0) and
`"h"` (handler 1) sharing the grouping key 5; the shared batch operation
answers every sub-path with the non-null `vOK`. -/
def envA : RouterEnv where
  meta := [(strOf "s", 0), (strOf "h", 1)]
  key := fun _ => 5
  handle := fun _ _ _ paths _ => .ok (paths.map (fun _ => vOK))
  idHandlers := []
  idHandle := fun _ _ _ _ => .ok ()
  parseURL := fun _ => .ok 0
  resolveURL := fun u => .ok u

/-- A concrete registry with one handler `"s"` whose batch operation
returns the distinct non-null values `vOK`, `.typed .otherKind false 1`,
... position by position. -/
def envB : RouterEnv where
  meta := [(strOf "s", 0)]
  key := fun _ => 5
  handle := fun _ _ _ paths _ =>
    .ok ((List.range paths.length).map (fun i => .typed .otherKind false i))
  idHandlers := []
  idHandle := fun _ _ _ _ => .ok ()
  parseURL := fun _ => .ok 0
  resolveURL := fun u => .ok u

/-- A concrete environment for the bulk endpoint: one facet handler
`"s"`; the external parser maps the id string `"b"` to URL 1 and every
other string to URL 0; the resolver fails URL 1 with `ErrNotFound` and
resolves everything else. -/
def envC : RouterEnv where
  meta := [(strOf "s", 0)]
  key := fun _ => 5
  handle := fun _ _ _ paths _ => .ok (paths.map (fun _ => vOK))
  idHandlers := []
  idHandle := fun _ _ _ _ => .ok ()
  parseURL := fun s => .ok (if s = strOf "b" then 1 else 0)
  resolveURL := fun u => if u = 1 then .error .errNotFound else .ok u

/-- A concrete registry with one handler `"s"` whose batch operation
always fails with a collaborator error. -/
def envE : RouterEnv where
  meta := [(strOf "s", 0)]
  key := fun _ => 5
  handle := fun _ _ _ _ _ => .error (.collabErr (strOf "boom"))
  idHandlers := []
  idHandle := fun _ _ _ _ => .ok ()
  parseURL := fun _ => .ok 0
  resolveURL := fun u => .ok u

/-- A concrete registry with handlers `"s"` and `"n"` sharing a grouping
key; the batch operation returns the non-null `vOK` for the first
sub-path and the nil interface for every later one. -/
def envF : RouterEnv where
  meta := [(strOf "s", 0), (strOf "n", 1)]
  key := fun _ => 5
  handle := fun _ _ _ paths _ =>
    .ok ((List.range paths.length).map (fun i => if i = 0 then vOK else .goNil))
  idHandlers := []
  idHandle := fun _ _ _ _ => .ok ()
  parseURL := fun _ => .ok 0
  resolveURL := fun u => .ok u

/-- A concrete environment whose metadata-facet table is empty. -/
def envD : RouterEnv where
  meta := []
  key := fun _ => 0
  handle := fun _ _ _ _ _ => .ok []
  idHandlers := []
  idHandle := fun _ _ _ _ => .ok ()
  parseURL := fun _ => .ok 0
  resolveURL := fun u => .ok u

-- Sanity checks of the embedding on concrete inputs (mirrors the Go doc
-- example: splitPath("/foo/bar/bzr", 4) returns ("bar", 8)).
example : splitPath (strOf "/foo/bar/bzr") 4 = (strOf "bar", 8) := by decide

example : handlerKey (strOf "/foo/bar") = (strOf "foo/", strOf "/bar") := by decide

example : handlerKey (strOf "foo") = (strOf "foo", strOf "") := by decide

example : handlerKey (strOf "") = ([], []) := by decide

/-! ## Path-splitter lemmas -/

lemma slashIdx_none {s : Str} (h : slashIdx s = none) :
    s.takeWhile (fun c => c != '/') = s := by
  induction s with
  | nil => rfl
  | cons c rest ih =>
    unfold slashIdx at h
    by_cases hc : c = '/'
    · simp [hc] at h
    · rw [if_neg hc] at h
      cases hr : slashIdx rest with
      | none => simp [List.takeWhile_cons, hc, ih hr]
      | some j => rw [hr] at h; simp at h

lemma slashIdx_some {s : Str} {j : Nat} (h : slashIdx s = some j) :
    j = (s.takeWhile (fun c => c != '/')).length ∧ j < s.length ∧
      s.take j = s.takeWhile (fun c => c != '/') ∧ s.getD j ' ' = '/' := by
  induction s generalizing j with
  | nil => simp [slashIdx] at h
  | cons c rest ih =>
    unfold slashIdx at h
    by_cases hc : c = '/'
    · rw [if_pos hc] at h
      obtain rfl : j = 0 := by simpa using h.symm
      simp [List.takeWhile_cons, hc]
    · rw [if_neg hc] at h
      cases hr : slashIdx rest with
      | none => rw [hr] at h; simp at h
      | some j0 =>
        rw [hr] at h
        obtain rfl : j = j0 + 1 := by simpa using h.symm
        obtain ⟨h1, h2, h3, h4⟩ := ih hr
        refine ⟨?_, ?_, ?_, ?_⟩
        · simp [List.takeWhile_cons, hc, h1]
        · simpa using h2
        · simp [List.takeWhile_cons, hc, h3]
        · simpa using h4

/-- Full characterization of `splitPath` in terms of `elemAt`. -/
lemma splitPath_eq (path : Str) (i : Nat) :
    splitPath path i =
      (elemAt path i,
        if (elemAt path i).length < (afterSkip path i).length
        then skipSlash path i + (elemAt path i).length
        else path.length) := by
  unfold splitPath elemAt
  cases hs : slashIdx (afterSkip path i) with
  | none =>
    have hw := slashIdx_none hs
    dsimp only
    rw [hw]
    simp
  | some j =>
    obtain ⟨h1, h2, h3, _⟩ := slashIdx_some hs
    dsimp only
    rw [h3, if_pos (h1 ▸ h2), ← h1, Nat.add_comm]

lemma getD_drop (l : Str) (n m : Nat) : (l.drop n).getD m ' ' = l.getD (n + m) ' ' := by
  induction l generalizing n m with
  | nil => simp
  | cons c rest ih =>
    cases n with
    | zero => simp
    | succ n0 => rw [Nat.succ_add]; exact ih n0 m

lemma takeWhile_len_le (l : Str) : (l.takeWhile (fun c => c != '/')).length ≤ l.length := by
  induction l with
  | nil => simp
  | cons c rest ih =>
    by_cases hc : c = '/'
    · simp [List.takeWhile_cons, hc]
    · simp only [List.takeWhile_cons]
      rw [if_pos (by simpa using hc)]
      simpa using ih

lemma takeWhile_take (l : Str) :
    l.take (l.takeWhile (fun c => c != '/')).length = l.takeWhile (fun c => c != '/') := by
  induction l with
  | nil => simp
  | cons c rest ih =>
    by_cases hc : c = '/'
    · simp [List.takeWhile_cons, hc]
    · simp only [List.takeWhile_cons]
      rw [if_pos (by simpa using hc)]
      simpa using ih

lemma takeWhile_stop {l : Str} (h : (l.takeWhile (fun c => c != '/')).length < l.length) :
    l.getD (l.takeWhile (fun c => c != '/')).length ' ' = '/' := by
  induction l with
  | nil => simp at h
  | cons c rest ih =>
    by_cases hc : c = '/'
    · simp [List.takeWhile_cons, hc]
    · simp only [List.takeWhile_cons] at h ⊢
      rw [if_pos (by simpa using hc)] at h ⊢
      simp only [List.length_cons] at h ⊢
      exact ih (by omega)

lemma take_succ_getD (l : Str) (n : Nat) (h : n < l.length) :
    l.take (n + 1) = l.take n ++ [l.getD n ' '] := by
  induction l generalizing n with
  | nil => simp at h
  | cons c rest ih =>
    cases n with
    | zero => simp
    | succ n0 =>
      simp only [List.take_succ_cons, List.getD_cons_succ, List.cons_append]
      rw [← ih n0 (by simpa using h)]

lemma skipSlash_zero {p : Str} (h : p.getD 0 ' ' ≠ '/') : skipSlash p 0 = 0 := by
  unfold skipSlash
  rw [if_neg h]

lemma trimLead_getD {path0 : Str} (hp : path0.take 2 ≠ strOf "//") :
    (trimLeadSlash path0).getD 0 ' ' ≠ '/' := by
  match path0 with
  | [] => simp [trimLeadSlash]
  | c :: rest =>
    by_cases hc : c = '/'
    · subst hc
      simp only [trimLeadSlash, if_pos rfl]
      cases rest with
      | nil => decide
      | cons d rest2 =>
        intro hd
        apply hp
        have hd2 : d = '/' := by simpa using hd
        simp [strOf, hd2]
    · simp only [trimLeadSlash, if_neg hc]
      simpa using hc

lemma elemAt_zero (path0 : Str) :
    elemAt path0 0 = (trimLeadSlash path0).takeWhile (fun c => c != '/') := by
  match path0 with
  | [] => rfl
  | c :: rest =>
    by_cases hc : c = '/'
    · subst hc
      simp only [elemAt, afterSkip, skipSlash, trimLeadSlash]
      simp
    · simp only [elemAt, afterSkip, skipSlash, trimLeadSlash, if_neg hc]
      rw [if_neg (by simpa using hc), List.drop_zero]

/-- Characterization of `handlerKey` for paths whose residue after the
single `TrimPrefix` does not start with a slash. -/
lemma handlerKey_eq (path0 : Str) (hnz : (trimLeadSlash path0).getD 0 ' ' ≠ '/') :
    handlerKey path0 =
      (if (trimLeadSlash path0).takeWhile (fun c => c != '/') = [] then ([], [])
       else if ((trimLeadSlash path0).takeWhile (fun c => c != '/')).length + 1 <
           (trimLeadSlash path0).length then
         ((trimLeadSlash path0).takeWhile (fun c => c != '/') ++ ['/'],
           (trimLeadSlash path0).drop
             ((trimLeadSlash path0).takeWhile (fun c => c != '/')).length)
       else ((trimLeadSlash path0).takeWhile (fun c => c != '/'), [])) := by
  have hsk : skipSlash (trimLeadSlash path0) 0 = 0 := skipSlash_zero hnz
  have has : afterSkip (trimLeadSlash path0) 0 = trimLeadSlash path0 := by
    unfold afterSkip
    rw [hsk]
    simp
  have hel : elemAt (trimLeadSlash path0) 0 =
      (trimLeadSlash path0).takeWhile (fun c => c != '/') := by
    unfold elemAt
    rw [has]
  have hsp := splitPath_eq (trimLeadSlash path0) 0
  rw [hel, has, hsk] at hsp
  unfold handlerKey
  rw [hsp]
  by_cases hE : (trimLeadSlash path0).takeWhile (fun c => c != '/') = []
  · rw [if_pos hE, if_pos hE]
  · rw [if_neg hE, if_neg hE]
    have hplen : 1 ≤ (trimLeadSlash path0).length := by
      rcases hq : trimLeadSlash path0 with _ | ⟨c, rest⟩
      · rw [hq] at hE; simp at hE
      · simp
    have hle := takeWhile_len_le (trimLeadSlash path0)
    by_cases hlt : ((trimLeadSlash path0).takeWhile (fun c => c != '/')).length <
        (trimLeadSlash path0).length
    · rw [if_pos hlt]
      dsimp only
      by_cases hcond : ((trimLeadSlash path0).takeWhile (fun c => c != '/')).length + 1 <
          (trimLeadSlash path0).length
      · rw [if_pos (by omega : 0 + ((trimLeadSlash path0).takeWhile (fun c => c != '/')).length <
            (trimLeadSlash path0).length - 1), if_pos hcond]
        have htk : (trimLeadSlash path0).take
            (0 + ((trimLeadSlash path0).takeWhile (fun c => c != '/')).length + 1) =
            (trimLeadSlash path0).takeWhile (fun c => c != '/') ++ ['/'] := by
          rw [Nat.zero_add, take_succ_getD _ _ hlt, takeWhile_take, takeWhile_stop hlt]
        rw [htk]
        rw [Nat.zero_add]
      · rw [if_neg (by omega : ¬ (0 + ((trimLeadSlash path0).takeWhile (fun c => c != '/')).length <
            (trimLeadSlash path0).length - 1)), if_neg hcond]
    · rw [if_neg hlt]
      dsimp only
      rw [if_neg (by omega : ¬ ((trimLeadSlash path0).length < (trimLeadSlash path0).length - 1)),
        if_neg (by omega : ¬ (((trimLeadSlash path0).takeWhile (fun c => c != '/')).length + 1 <
          (trimLeadSlash path0).length))]

lemma takeWhile_nil_iff {p : Str} (h : p.getD 0 ' ' ≠ '/') :
    (p.takeWhile (fun c => c != '/') = []) ↔ p = [] := by
  cases p with
  | nil => simp
  | cons c rest =>
    simp only [List.getD_cons_zero] at h
    simp [List.takeWhile_cons, h]

/-!  ## Claim C10: splitPath  -/

/-- **C10.**  For every path string and start index (within the string, as
the Go indexing requires), `splitPath` returns the next "/"-delimited
element and the index where the following element begins: a leading "/"
at the start position is skipped before the element is extracted
(`skipSlash`/`afterSkip`); the element is the run of characters up to the
next "/"; when a "/" was found the returned index is its position, and
restarting the splitter at that index resumes immediately after the "/",
so the following element is extracted from exactly there; when the path
contains no further "/" the remainder of the path and the end-of-string
index `path.length` are returned. -/
theorem splitPath_next_element (path : Str) (i : Nat) (_hi : i ≤ path.length) :
    splitPath path i =
      (elemAt path i,
        if (elemAt path i).length < (afterSkip path i).length
        then skipSlash path i + (elemAt path i).length
        else path.length)
    ∧ ((elemAt path i).length < (afterSkip path i).length →
        afterSkip path ((splitPath path i).2) =
          (afterSkip path i).drop ((elemAt path i).length + 1)) := by
  refine ⟨splitPath_eq path i, ?_⟩
  intro hlt
  have h2 : (splitPath path i).2 = skipSlash path i + (elemAt path i).length := by
    rw [splitPath_eq]
    dsimp only
    rw [if_pos hlt]
  rw [h2]
  have hg : path.getD (skipSlash path i + (elemAt path i).length) ' ' = '/' := by
    rw [← getD_drop]
    exact takeWhile_stop hlt
  have hstep : ∀ n, path.getD n ' ' = '/' → skipSlash path n = n + 1 := by
    intro n hn
    unfold skipSlash
    rw [if_pos hn]
  have h3 := hstep _ hg
  show path.drop (skipSlash path (skipSlash path i + (elemAt path i).length)) = _
  rw [h3]
  show _ = (path.drop (skipSlash path i)).drop ((elemAt path i).length + 1)
  rw [List.drop_drop]
  congr 1

/-- Witness for C10 at the concrete input of the source's own doc
comment: `splitPath("/foo/bar/bzr", 4)`. -/
theorem splitPath_next_element_witness :
    4 ≤ (strOf "/foo/bar/bzr").length ∧
      (splitPath (strOf "/foo/bar/bzr") 4 =
          (elemAt (strOf "/foo/bar/bzr") 4,
            if (elemAt (strOf "/foo/bar/bzr") 4).length <
                (afterSkip (strOf "/foo/bar/bzr") 4).length
            then skipSlash (strOf "/foo/bar/bzr") 4 + (elemAt (strOf "/foo/bar/bzr") 4).length
            else (strOf "/foo/bar/bzr").length)
        ∧ ((elemAt (strOf "/foo/bar/bzr") 4).length <
              (afterSkip (strOf "/foo/bar/bzr") 4).length →
            afterSkip (strOf "/foo/bar/bzr") ((splitPath (strOf "/foo/bar/bzr") 4).2) =
              (afterSkip (strOf "/foo/bar/bzr") 4).drop
                ((elemAt (strOf "/foo/bar/bzr") 4).length + 1))) :=
  ⟨by decide, splitPath_next_element (strOf "/foo/bar/bzr") 4 (by decide)⟩

/-!  ## Claim C9: handlerKey  -/

/-- **C9 counterexample.**  On the rest-of-path `"//foo/bar"` (reachable,
e.g., from the URL path `/wordpress//foo/bar`), `handlerKey` returns the
key `"/foo/"` with a *leading* slash.  The path's first element — whether
read as what the splitter extracts at index 0 (the empty element) or as
the first element after the trimmed leading slash (`"foo"`) — is neither
that key, nor that key without the trailing slash, so the claimed shape
"first element, plus a trailing slash iff more path remains" is violated,
and the key is non-empty even though the splitter's first element is
empty. -/
theorem handlerKey_first_element_cex :
    handlerKey (strOf "//foo/bar") = (strOf "/foo/", strOf "/bar")
    ∧ elemAt (strOf "//foo/bar") 0 = []
    ∧ elemAt (trimLeadSlash (strOf "//foo/bar")) 0 = strOf "foo"
    ∧ strOf "/foo/" ≠ []
    ∧ strOf "/foo/" ≠ ['/']
    ∧ strOf "/foo/" ≠ strOf "foo"
    ∧ strOf "/foo/" ≠ strOf "foo" ++ ['/'] := by decide

/-- **C9 (amended).**  For every rest-of-path that does not begin with two
consecutive slashes: `handlerKey` returns an empty key exactly when the
path has no elements (nothing remains after stripping the single leading
slash), and identifier-rooted dispatch (`serveIds`) then returns the
NotFound error (given that the identifier itself parsed and resolved);
otherwise the key is the path's first element with a trailing "/" appended
if and only if more path remains after that element's terminating slash,
and the returned rest is the remaining path (beginning at that slash) for
the handler. -/
theorem handlerKey_first_element (path0 : Str) (hp : path0.take 2 ≠ strOf "//") :
    ((handlerKey path0).1 = [] ↔ trimLeadSlash path0 = [])
    ∧ (elemAt path0 0 ≠ [] →
        ((elemAt path0 0).length + 1 < (trimLeadSlash path0).length →
          handlerKey path0 =
            (elemAt path0 0 ++ ['/'], (trimLeadSlash path0).drop (elemAt path0 0).length))
        ∧ (¬ (elemAt path0 0).length + 1 < (trimLeadSlash path0).length →
          handlerKey path0 = (elemAt path0 0, [])))
    ∧ (∀ env : RouterEnv, ∀ form reqPath url rest url2,
        splitId env (trimTrailSlash reqPath) = .ok (url, rest) →
        env.resolveURL url = .ok url2 →
        (handlerKey rest).1 = [] →
        serveIds env reqPath form = .error .errNotFound) := by
  have hnz := trimLead_getD hp
  have hk := handlerKey_eq path0 hnz
  have hE := elemAt_zero path0
  refine ⟨?_, ?_, ?_⟩
  · rw [hk]
    by_cases htw : (trimLeadSlash path0).takeWhile (fun c => c != '/') = []
    · rw [if_pos htw]
      simp [(takeWhile_nil_iff hnz).1 htw]
    · rw [if_neg htw]
      have hpne : trimLeadSlash path0 ≠ [] := fun hq => htw (by rw [hq]; rfl)
      split_ifs with hcond
      · simp [hpne]
      · simp [htw, hpne]
  · rw [hE]
    intro hne
    exact ⟨fun hcond => by rw [hk, if_neg hne, if_pos hcond],
      fun hcond => by rw [hk, if_neg hne, if_neg hcond]⟩
  · intro env form reqPath url rest url2 h1 h2 h3
    unfold serveIds
    rw [h1]
    dsimp only
    rw [h2]
    dsimp only
    rw [if_pos h3]

/-- Witness for C9 on the rest-of-path `"/foo/bar"` (key `"foo/"`, rest
`"/bar"`), plus a concrete empty-key dispatch (`serveIds` on a bare
resolvable identifier) returning NotFound. -/
theorem handlerKey_first_element_witness :
    (strOf "/foo/bar").take 2 ≠ strOf "//"
    ∧ handlerKey (strOf "/foo/bar") = (strOf "foo/", strOf "/bar")
    ∧ serveIds envC (strOf "wordpress") [] = .error .errNotFound := by
  refine ⟨by decide, ?_, ?_⟩
  · have h := ((handlerKey_first_element (strOf "/foo/bar") (by decide)).2.1
      (by decide)).1 (by decide)
    rw [h]
    decide
  · exact (handlerKey_first_element (strOf "/foo/bar") (by decide)).2.2 envC []
      (strOf "wordpress") 0 [] 0 (by decide) (by decide) (by decide)

/-!  ## Association-list and merge lemmas -/

lemma lookupKey_eq_none {κ α : Type} [DecidableEq κ] (m : List (κ × α)) (k : κ) :
    lookupKey m k = none ↔ k ∉ m.map Prod.fst := by
  induction m with
  | nil => simp [lookupKey]
  | cons p rest ih =>
    unfold lookupKey
    by_cases hp : p.1 = k
    · simp [hp]
    · simp only [if_neg hp, List.map_cons, List.mem_cons, ih]
      constructor
      · rintro h1 (h2 | h2)
        · exact hp h2.symm
        · exact h1 h2
      · intro h1 h2
        exact h1 (Or.inr h2)

lemma lookupKey_mem {κ α : Type} [DecidableEq κ] {m : List (κ × α)}
    (hnd : (m.map Prod.fst).Nodup) {k : κ} {v : α} (hm : (k, v) ∈ m) :
    lookupKey m k = some v := by
  induction m with
  | nil => simp at hm
  | cons p rest ih =>
    simp only [List.map_cons, List.nodup_cons] at hnd
    rcases List.mem_cons.1 hm with h1 | h1
    · rw [← h1]
      unfold lookupKey
      rw [if_pos rfl]
    · unfold lookupKey
      have hp : p.1 ≠ k := by
        intro hq
        exact hnd.1 (hq ▸ (List.mem_map.2 ⟨(k, v), h1, rfl⟩))
      rw [if_neg hp]
      exact ih hnd.2 h1

lemma lookupKey_some_mem {κ α : Type} [DecidableEq κ] {m : List (κ × α)} {k : κ} {v : α}
    (h : lookupKey m k = some v) : k ∈ m.map Prod.fst := by
  by_contra hq
  rw [← lookupKey_eq_none m k] at hq
  rw [h] at hq
  exact Option.noConfusion hq

lemma setKey_lookup_same {κ α : Type} [DecidableEq κ] (m : List (κ × α)) (k : κ) (v : α) :
    lookupKey (setKey m k v) k = some v := by
  induction m with
  | nil => simp [setKey, lookupKey]
  | cons p rest ih =>
    unfold setKey
    by_cases hp : p.1 = k
    · rw [if_pos hp]
      unfold lookupKey
      rw [if_pos rfl]
    · rw [if_neg hp]
      unfold lookupKey
      rw [if_neg hp]
      exact ih

lemma setKey_lookup_ne {κ α : Type} [DecidableEq κ] (m : List (κ × α)) (k : κ) (v : α)
    {q : κ} (hq : q ≠ k) : lookupKey (setKey m k v) q = lookupKey m q := by
  induction m with
  | nil => simp [setKey, lookupKey, Ne.symm hq]
  | cons p rest ih =>
    unfold setKey
    by_cases hp : p.1 = k
    · rw [if_pos hp]
      simp only [lookupKey]
      rw [if_neg (by simpa using Ne.symm hq), if_neg (fun h => hq (h.symm.trans hp))]
    · rw [if_neg hp]
      unfold lookupKey
      by_cases hpq : p.1 = q
      · rw [if_pos hpq, if_pos hpq]
      · rw [if_neg hpq, if_neg hpq]
        exact ih

lemma setKey_keys_mem {κ α : Type} [DecidableEq κ] (m : List (κ × α)) (k : κ) (v : α) (q : κ) :
    q ∈ (setKey m k v).map Prod.fst ↔ q ∈ m.map Prod.fst ∨ q = k := by
  induction m with
  | nil => simp [setKey]
  | cons p rest ih =>
    unfold setKey
    by_cases hp : p.1 = k
    · rw [if_pos hp]
      simp only [List.map_cons, List.mem_cons, hp]
      tauto
    · rw [if_neg hp]
      simp only [List.map_cons, List.mem_cons, ih]
      tauto

lemma setKey_keys_nodup {κ α : Type} [DecidableEq κ] {m : List (κ × α)}
    (hnd : (m.map Prod.fst).Nodup) (k : κ) (v : α) :
    ((setKey m k v).map Prod.fst).Nodup := by
  induction m with
  | nil => simp [setKey]
  | cons p rest ih =>
    simp only [List.map_cons, List.nodup_cons] at hnd
    unfold setKey
    by_cases hp : p.1 = k
    · rw [if_pos hp]
      simp only [List.map_cons, List.nodup_cons]
      exact ⟨hp ▸ hnd.1, hnd.2⟩
    · rw [if_neg hp]
      simp only [List.map_cons, List.nodup_cons]
      refine ⟨?_, ih hnd.2⟩
      rw [setKey_keys_mem]
      rintro (h1 | h1)
      · exact hnd.1 h1
      · exact hp h1

lemma mergeResults_nil_left (res : List (Str × GoValue)) (rs : List GoValue) :
    mergeResults res [] rs = res := rfl

lemma mergeResults_nil_right (res : List (Str × GoValue)) (incs : List Str) :
    mergeResults res incs [] = res := by
  unfold mergeResults
  rw [List.zip_nil_right]
  rfl

lemma mergeResults_cons (res : List (Str × GoValue)) (inc : Str) (incs : List Str)
    (r : GoValue) (rs : List GoValue) :
    mergeResults res (inc :: incs) (r :: rs) =
      mergeResults (if isNull r then res else setKey res inc r) incs rs := by
  unfold mergeResults
  rw [List.zip_cons_cons, List.foldl_cons]

lemma mergeResults_lookup_notMem (res : List (Str × GoValue)) (incs : List Str)
    (rs : List GoValue) {q : Str} (hq : q ∉ incs) :
    lookupKey (mergeResults res incs rs) q = lookupKey res q := by
  induction incs generalizing res rs with
  | nil => rw [mergeResults_nil_left]
  | cons inc incs ih =>
    cases rs with
    | nil => rw [mergeResults_nil_right]
    | cons r rs =>
      rw [mergeResults_cons]
      have hq1 : q ≠ inc := fun h => hq (h ▸ List.mem_cons_self inc incs)
      have hq2 : q ∉ incs := fun h => hq (List.mem_cons_of_mem inc h)
      rw [ih _ _ hq2]
      by_cases hn : isNull r
      · rw [if_pos hn]
      · rw [if_neg hn, setKey_lookup_ne _ _ _ hq1]

lemma mergeResults_lookup_at {incs : List Str} (hnd : incs.Nodup)
    {i : Nat} {inc : Str} {r : GoValue} {rs : List GoValue}
    (hinc : incs[i]? = some inc) (hr : rs[i]? = some r) (res : List (Str × GoValue)) :
    lookupKey (mergeResults res incs rs) inc =
      if isNull r then lookupKey res inc else some r := by
  induction incs generalizing i rs res with
  | nil => simp at hinc
  | cons inc0 incs ih =>
    cases rs with
    | nil => simp at hr
    | cons r0 rs =>
      simp only [List.nodup_cons] at hnd
      rw [mergeResults_cons]
      cases i with
      | zero =>
        have h1 : inc0 = inc := by simpa using hinc
        have h2 : r0 = r := by simpa using hr
        subst h1
        subst h2
        rw [mergeResults_lookup_notMem _ _ _ hnd.1]
        by_cases hn : isNull r0
        · rw [if_pos hn, if_pos hn]
        · rw [if_neg hn, if_neg hn, setKey_lookup_same]
      | succ i0 =>
        have hinc0 : incs[i0]? = some inc := by simpa using hinc
        have hr0 : rs[i0]? = some r := by simpa using hr
        have hne : inc ≠ inc0 := by
          intro hq
          exact hnd.1 (hq ▸ (List.getElem?_mem hinc0))
        rw [ih hnd.2 hinc0 hr0]
        by_cases hn0 : isNull r0
        · rw [if_pos hn0]
        · rw [if_neg hn0]
          by_cases hn : isNull r
          · rw [if_pos hn, if_pos hn, setKey_lookup_ne _ _ _ hne]
          · rw [if_neg hn, if_neg hn]

lemma mergeResults_no_null {res : List (Str × GoValue)}
    (hres : ∀ q v, lookupKey res q = some v → isNull v = false)
    (incs : List Str) (rs : List GoValue) :
    ∀ q v, lookupKey (mergeResults res incs rs) q = some v → isNull v = false := by
  induction incs generalizing res rs with
  | nil => rw [mergeResults_nil_left]; exact hres
  | cons inc incs ih =>
    cases rs with
    | nil => rw [mergeResults_nil_right]; exact hres
    | cons r rs =>
      rw [mergeResults_cons]
      by_cases hn : isNull r
      · rw [if_pos hn]
        exact ih hres rs
      · rw [if_neg hn]
        refine ih ?_ rs
        intro q v hv
        by_cases hq : q = inc
        · subst hq
          rw [setKey_lookup_same] at hv
          obtain rfl : r = v := by simpa using hv
          simpa using hn
        · rw [setKey_lookup_ne _ _ _ hq] at hv
          exact hres q v hv

/-!  ## Grouping lemmas (first loop of GetMetadata) -/

lemma group_cons_hit {env : RouterEnv} {inc : Str} {h : Nat}
    (hres : resolveH env inc = some h) (rest : List Str) {k : Nat} (hk : env.key h = k) :
    groupIncludes env (inc :: rest) k = inc :: groupIncludes env rest k
    ∧ groupHandlers env (inc :: rest) k = h :: groupHandlers env rest k := by
  have hik : incKey env inc = some k := by
    unfold incKey
    rw [hres]
    simp [hk]
  constructor
  · unfold groupIncludes
    simp [List.filter_cons, hik]
  · unfold groupHandlers
    have h1 : groupIncludes env (inc :: rest) k = inc :: groupIncludes env rest k := by
      unfold groupIncludes
      simp [List.filter_cons, hik]
    rw [h1, List.filterMap_cons, hres]

lemma group_cons_miss {env : RouterEnv} {inc : Str} {k : Nat}
    (hmiss : incKey env inc ≠ some k) (rest : List Str) :
    groupIncludes env (inc :: rest) k = groupIncludes env rest k
    ∧ groupHandlers env (inc :: rest) k = groupHandlers env rest k := by
  have h1 : groupIncludes env (inc :: rest) k = groupIncludes env rest k := by
    unfold groupIncludes
    simp [List.filter_cons, hmiss]
  exact ⟨h1, by unfold groupHandlers; rw [h1]⟩

lemma appendGroup_lookup_none {acc : List MetaGroup} {k : Nat} (h0 : lookupKey acc k = none)
    (h : Nat) (inc : Str) : lookupKey (appendGroup acc k h inc) k = some ([h], [inc]) := by
  induction acc with
  | nil => simp [appendGroup, lookupKey]
  | cons g rest ih =>
    obtain ⟨k0, hs, incs⟩ := g
    unfold lookupKey at h0
    unfold appendGroup
    by_cases hk : k0 = k
    · rw [if_pos hk] at h0
      exact Option.noConfusion h0
    · rw [if_neg hk] at h0
      rw [if_neg hk]
      unfold lookupKey
      rw [if_neg hk]
      exact ih h0

lemma appendGroup_lookup_some {acc : List MetaGroup} {k : Nat} {hs0 : List Nat}
    {incs0 : List Str} (h0 : lookupKey acc k = some (hs0, incs0)) (h : Nat) (inc : Str) :
    lookupKey (appendGroup acc k h inc) k = some (hs0 ++ [h], incs0 ++ [inc]) := by
  induction acc with
  | nil => simp [lookupKey] at h0
  | cons g rest ih =>
    obtain ⟨k0, hs, incs⟩ := g
    unfold lookupKey at h0
    unfold appendGroup
    by_cases hk : k0 = k
    · rw [if_pos hk] at h0
      have h1 : (hs, incs) = (hs0, incs0) := by simpa using h0
      obtain ⟨rfl, rfl⟩ := Prod.mk.inj h1
      rw [if_pos hk]
      unfold lookupKey
      rw [if_pos hk]
    · rw [if_neg hk] at h0
      rw [if_neg hk]
      unfold lookupKey
      rw [if_neg hk]
      exact ih h0

lemma appendGroup_lookup_ne (acc : List MetaGroup) {k q : Nat} (hne : q ≠ k)
    (h : Nat) (inc : Str) : lookupKey (appendGroup acc k h inc) q = lookupKey acc q := by
  induction acc with
  | nil => simp [appendGroup, lookupKey, Ne.symm hne]
  | cons g rest ih =>
    obtain ⟨k0, hs, incs⟩ := g
    unfold appendGroup
    by_cases hk : k0 = k
    · rw [if_pos hk]
      by_cases hq : k0 = q
      · exact absurd (hq.symm.trans hk) hne
      · simp [lookupKey, hq]
    · rw [if_neg hk]
      unfold lookupKey
      by_cases hq : k0 = q
      · rw [if_pos hq, if_pos hq]
      · rw [if_neg hq, if_neg hq]
        exact ih

lemma appendGroup_keys (acc : List MetaGroup) (k : Nat) (h : Nat) (inc : Str) :
    (appendGroup acc k h inc).map Prod.fst =
      if lookupKey acc k = none then acc.map Prod.fst ++ [k] else acc.map Prod.fst := by
  induction acc with
  | nil => simp [appendGroup, lookupKey]
  | cons g rest ih =>
    obtain ⟨k0, hs, incs⟩ := g
    unfold appendGroup
    unfold lookupKey
    by_cases hk : k0 = k
    · rw [if_pos hk, if_pos hk]
      simp
    · rw [if_neg hk, if_neg hk]
      simp only [List.map_cons]
      rw [ih]
      by_cases h0 : lookupKey rest k = none
      · rw [if_pos h0, if_pos h0]
        simp
      · rw [if_neg h0, if_neg h0]

lemma gather_lookup_some {env : RouterEnv} :
    ∀ {includes : List Str} {acc gs : List MetaGroup} {k : Nat} {hs0 : List Nat}
      {incs0 : List Str},
      gatherGroups env includes acc = .ok gs →
      lookupKey acc k = some (hs0, incs0) →
      lookupKey gs k =
        some (hs0 ++ groupHandlers env includes k, incs0 ++ groupIncludes env includes k) := by
  intro includes
  induction includes with
  | nil =>
    intro acc gs k hs0 incs0 hg h0
    have hacc : acc = gs := by simpa [gatherGroups] using hg
    subst hacc
    simp [groupHandlers, groupIncludes, h0]
  | cons inc rest ih =>
    intro acc gs k hs0 incs0 hg h0
    unfold gatherGroups at hg
    cases hres : lookupKey env.meta (handlerKey inc).1 with
    | none => rw [hres] at hg; exact Except.noConfusion hg
    | some h =>
      rw [hres] at hg
      dsimp only at hg
      have hres2 : resolveH env inc = some h := hres
      by_cases hk : env.key h = k
      · obtain ⟨hgi, hgh⟩ := group_cons_hit hres2 rest hk
        rw [hgi, hgh]
        rw [hk] at hg
        have h1 := appendGroup_lookup_some h0 h inc
        have h2 := ih hg h1
        rw [h2]
        simp
      · have hmiss : incKey env inc ≠ some k := by
          unfold incKey
          rw [hres2]
          simp [hk]
        obtain ⟨hgi, hgh⟩ := group_cons_miss hmiss rest
        rw [hgi, hgh]
        have h1 : lookupKey (appendGroup acc (env.key h) h inc) k = some (hs0, incs0) := by
          rw [appendGroup_lookup_ne acc (fun hq => hk hq.symm) h inc]
          exact h0
        exact ih hg h1

lemma gather_lookup_none {env : RouterEnv} :
    ∀ {includes : List Str} {acc gs : List MetaGroup} {k : Nat},
      gatherGroups env includes acc = .ok gs →
      lookupKey acc k = none →
      lookupKey gs k =
        if groupIncludes env includes k = [] then none
        else some (groupHandlers env includes k, groupIncludes env includes k) := by
  intro includes
  induction includes with
  | nil =>
    intro acc gs k hg h0
    have hacc : acc = gs := by simpa [gatherGroups] using hg
    subst hacc
    simp [groupIncludes, h0]
  | cons inc rest ih =>
    intro acc gs k hg h0
    unfold gatherGroups at hg
    cases hres : lookupKey env.meta (handlerKey inc).1 with
    | none => rw [hres] at hg; exact Except.noConfusion hg
    | some h =>
      rw [hres] at hg
      dsimp only at hg
      have hres2 : resolveH env inc = some h := hres
      by_cases hk : env.key h = k
      · obtain ⟨hgi, hgh⟩ := group_cons_hit hres2 rest hk
        rw [hgi, hgh]
        rw [if_neg (by simp)]
        rw [hk] at hg
        have h1 := appendGroup_lookup_none h0 h inc
        have h2 := gather_lookup_some hg h1
        rw [h2]
        simp
      · have hmiss : incKey env inc ≠ some k := by
          unfold incKey
          rw [hres2]
          simp [hk]
        obtain ⟨hgi, hgh⟩ := group_cons_miss hmiss rest
        rw [hgi, hgh]
        have h1 : lookupKey (appendGroup acc (env.key h) h inc) k = none := by
          rw [appendGroup_lookup_ne acc (fun hq => hk hq.symm) h inc]
          exact h0
        exact ih hg h1

lemma gather_keys_nodup {env : RouterEnv} :
    ∀ {includes : List Str} {acc gs : List MetaGroup},
      (acc.map Prod.fst).Nodup →
      gatherGroups env includes acc = .ok gs →
      (gs.map Prod.fst).Nodup := by
  intro includes
  induction includes with
  | nil =>
    intro acc gs hnd hg
    have hacc : acc = gs := by simpa [gatherGroups] using hg
    subst hacc
    exact hnd
  | cons inc rest ih =>
    intro acc gs hnd hg
    unfold gatherGroups at hg
    cases hres : lookupKey env.meta (handlerKey inc).1 with
    | none => rw [hres] at hg; exact Except.noConfusion hg
    | some h =>
      rw [hres] at hg
      refine ih ?_ hg
      rw [appendGroup_keys]
      by_cases h0 : lookupKey acc (env.key h) = none
      · rw [if_pos h0]
        have hnm : env.key h ∉ acc.map Prod.fst := (lookupKey_eq_none _ _).1 h0
        simp [List.nodup_append, hnd, hnm]
      · rw [if_neg h0]
        exact hnd

lemma gather_error {env : RouterEnv} :
    ∀ {pre : List Str} {inc : Str} {post : List Str} {acc : List MetaGroup},
      (∀ p ∈ pre, resolveH env p ≠ none) → resolveH env inc = none →
      gatherGroups env (pre ++ inc :: post) acc =
        .error (.unrecognizedMetadataName inc) := by
  intro pre
  induction pre with
  | nil =>
    intro inc post acc _ hinc
    rw [List.nil_append]
    unfold gatherGroups
    rw [show lookupKey env.meta (handlerKey inc).1 = none from hinc]
  | cons p pre ih =>
    intro inc post acc hpre hinc
    rw [List.cons_append]
    unfold gatherGroups
    cases hres : lookupKey env.meta (handlerKey p).1 with
    | none => exact absurd hres (hpre p (List.mem_cons_self p _))
    | some h =>
      exact ih (fun q hq => hpre q (List.mem_cons_of_mem p hq)) hinc

/-!  ## Batch-execution lemmas (second loop of GetMetadata) -/

lemma runGroups_trace_ok {env : RouterEnv} {id : CharmURL} :
    ∀ {gs : List MetaGroup} {res : List (Str × GoValue)} {tr : List BatchCall}
      {m : List (Str × GoValue)} {tr2 : List BatchCall},
      runGroups env id gs res tr = (.ok m, tr2) → tr2 = tr ++ gs.map (mkCall id) := by
  intro gs
  induction gs with
  | nil =>
    intro res tr m tr2 h
    simp only [runGroups, Prod.mk.injEq] at h
    rw [← h.2]
    simp
  | cons g rest ih =>
    intro res tr m tr2 h
    obtain ⟨k, hs, incs⟩ := g
    unfold runGroups at h
    cases hc : env.handle (hs.headD 0) hs id (incs.map (fun inc => (handlerKey inc).2)) none with
    | error e =>
      rw [hc] at h
      simp only [Prod.mk.injEq] at h
      exact absurd h.1 (by simp)
    | ok rs =>
      rw [hc] at h
      have h2 := ih h
      rw [h2]
      simp [mkCall]

lemma runGroups_flags {env : RouterEnv} {id : CharmURL} :
    ∀ {gs : List MetaGroup} {res : List (Str × GoValue)} {tr : List BatchCall},
      ∀ c ∈ (runGroups env id gs res tr).2, c ∈ tr ∨ c.flags = none := by
  intro gs
  induction gs with
  | nil =>
    intro res tr c hc
    exact Or.inl hc
  | cons g rest ih =>
    intro res tr c hc
    obtain ⟨k, hs, incs⟩ := g
    unfold runGroups at hc
    cases hcall : env.handle (hs.headD 0) hs id (incs.map (fun inc => (handlerKey inc).2)) none with
    | error e =>
      rw [hcall] at hc
      simp only [List.mem_append, List.mem_singleton] at hc
      rcases hc with h1 | h1
      · exact Or.inl h1
      · exact Or.inr (by rw [h1])
    | ok rs =>
      rw [hcall] at hc
      rcases ih c hc with h1 | h1
      · simp only [List.mem_append, List.mem_singleton] at h1
        rcases h1 with h2 | h2
        · exact Or.inl h2
        · exact Or.inr (by rw [h2])
      · exact Or.inr h1

lemma runGroups_ok_calls {env : RouterEnv} {id : CharmURL} :
    ∀ {gs : List MetaGroup} {res : List (Str × GoValue)} {tr : List BatchCall}
      {m : List (Str × GoValue)} {tr2 : List BatchCall},
      runGroups env id gs res tr = (.ok m, tr2) →
      ∀ g ∈ gs, ∃ rs, callOf env id g = .ok rs := by
  intro gs
  induction gs with
  | nil =>
    intro res tr m tr2 _ g hg
    simp at hg
  | cons g0 rest ih =>
    intro res tr m tr2 h g hg
    obtain ⟨k, hs, incs⟩ := g0
    unfold runGroups at h
    cases hc : env.handle (hs.headD 0) hs id (incs.map (fun inc => (handlerKey inc).2)) none with
    | error e =>
      rw [hc] at h
      simp only [Prod.mk.injEq] at h
      exact absurd h.1 (by simp)
    | ok rs =>
      rw [hc] at h
      rcases List.mem_cons.1 hg with h1 | h1
      · exact ⟨rs, by rw [h1]; exact hc⟩
      · exact ih h g h1

lemma runGroups_first_error {env : RouterEnv} {id : CharmURL} :
    ∀ {gs : List MetaGroup} {res : List (Str × GoValue)} {tr : List BatchCall}
      {g : MetaGroup} {e : GoErr},
      g ∈ gs → callOf env id g = .error e →
      ∃ e2 g2, g2 ∈ gs ∧ callOf env id g2 = .error e2 ∧
        (runGroups env id gs res tr).1 = .error e2 := by
  intro gs
  induction gs with
  | nil =>
    intro res tr g e hg
    simp at hg
  | cons g0 rest ih =>
    intro res tr g e hg herr
    obtain ⟨k, hs, incs⟩ := g0
    unfold runGroups
    cases hc : env.handle (hs.headD 0) hs id (incs.map (fun inc => (handlerKey inc).2)) none with
    | error e0 =>
      refine ⟨e0, (k, hs, incs), List.mem_cons_self _ _, hc, rfl⟩
    | ok rs =>
      rcases List.mem_cons.1 hg with h1 | h1
      · rw [h1] at herr
        have : Except.ok (ε := GoErr) rs = .error e := by rw [← hc, ← herr]; rfl
        exact absurd this (by simp)
      · obtain ⟨e2, g2, hg2, hc2, hres2⟩ := ih h1 herr
        exact ⟨e2, g2, List.mem_cons_of_mem _ hg2, hc2, hres2⟩

lemma runGroups_lookup_none {env : RouterEnv} {id : CharmURL} :
    ∀ {gs : List MetaGroup} {res : List (Str × GoValue)} {tr : List BatchCall}
      {m : List (Str × GoValue)} {tr2 : List BatchCall},
      runGroups env id gs res tr = (.ok m, tr2) →
      ∀ q, (∀ g ∈ gs, q ∉ g.2.2) → lookupKey m q = lookupKey res q := by
  intro gs
  induction gs with
  | nil =>
    intro res tr m tr2 h q _
    simp only [runGroups, Prod.mk.injEq] at h
    have h1 : res = m := by simpa using h.1
    rw [h1]
  | cons g0 rest ih =>
    intro res tr m tr2 h q hq
    obtain ⟨k, hs, incs⟩ := g0
    unfold runGroups at h
    cases hc : env.handle (hs.headD 0) hs id (incs.map (fun inc => (handlerKey inc).2)) none with
    | error e =>
      rw [hc] at h
      simp only [Prod.mk.injEq] at h
      exact absurd h.1 (by simp)
    | ok rs =>
      rw [hc] at h
      have h1 := ih h q (fun g hg => hq g (List.mem_cons_of_mem _ hg))
      rw [h1]
      exact mergeResults_lookup_notMem _ _ _ (hq (k, hs, incs) (List.mem_cons_self _ _))

lemma runGroups_lookup_at {env : RouterEnv} {id : CharmURL} :
    ∀ {gs : List MetaGroup} {res : List (Str × GoValue)} {tr : List BatchCall}
      {m : List (Str × GoValue)} {tr2 : List BatchCall},
      runGroups env id gs res tr = (.ok m, tr2) →
      (gs.map Prod.fst).Nodup →
      ∀ {k : Nat} {hs : List Nat} {incs : List Str}, (k, hs, incs) ∈ gs →
      incs.Nodup →
      ∀ {i : Nat} {inc : Str} {r : GoValue} {rs : List GoValue},
        callOf env id (k, hs, incs) = .ok rs →
        incs[i]? = some inc → rs[i]? = some r →
        (∀ g ∈ gs, inc ∈ g.2.2 → g.1 = k) →
        lookupKey m inc = if isNull r then lookupKey res inc else some r := by
  intro gs
  induction gs with
  | nil =>
    intro res tr m tr2 _ _ k hs incs hmem
    simp at hmem
  | cons g0 rest ih =>
    intro res tr m tr2 hrun hkeys k hs incs hmem hnd i inc r rs hcall hinc hr hdisj
    obtain ⟨k0, hs0, incs0⟩ := g0
    simp only [List.map_cons, List.nodup_cons] at hkeys
    unfold runGroups at hrun
    cases hc0 : env.handle (hs0.headD 0) hs0 id (incs0.map (fun inc => (handlerKey inc).2)) none with
    | error e =>
      rw [hc0] at hrun
      simp only [Prod.mk.injEq] at hrun
      exact absurd hrun.1 (by simp)
    | ok rs0 =>
      rw [hc0] at hrun
      rcases List.mem_cons.1 hmem with h1 | h1
      · injection h1 with hk hrest
        injection hrest with hhs hincs
        subst hk
        subst hhs
        subst hincs
        have e1 : callOf env id (k, hs, incs) = .ok rs0 := hc0
        rw [e1] at hcall
        have h2 : rs0 = rs := by simpa using hcall
        subst h2
        have hnone : ∀ g ∈ rest, inc ∉ g.2.2 := by
          intro g hg hin
          exact hkeys.1 ((hdisj g (List.mem_cons_of_mem _ hg) hin) ▸ List.mem_map.2 ⟨g, hg, rfl⟩)
        have h3 := runGroups_lookup_none hrun inc hnone
        rw [h3]
        exact mergeResults_lookup_at hnd hinc hr res
      · have hkne : k ≠ k0 := by
          intro hq
          exact hkeys.1 (hq ▸ List.mem_map.2 ⟨(k, hs, incs), h1, rfl⟩)
        have hninc0 : inc ∉ incs0 := by
          intro hin
          exact hkne ((hdisj (k0, hs0, incs0) (List.mem_cons_self _ _) hin).symm)
        have ihres := ih hrun hkeys.2 h1 hnd hcall hinc hr
          (fun g hg hin => hdisj g (List.mem_cons_of_mem _ hg) hin)
        rw [ihres]
        have hmm := mergeResults_lookup_notMem res incs0 rs0 hninc0
        by_cases hn : isNull r
        · rw [if_pos hn, if_pos hn, hmm]
        · rw [if_neg hn, if_neg hn]

lemma runGroups_no_null {env : RouterEnv} {id : CharmURL} :
    ∀ {gs : List MetaGroup} {res : List (Str × GoValue)} {tr : List BatchCall}
      {m : List (Str × GoValue)} {tr2 : List BatchCall},
      runGroups env id gs res tr = (.ok m, tr2) →
      (∀ q v, lookupKey res q = some v → isNull v = false) →
      ∀ q v, lookupKey m q = some v → isNull v = false := by
  intro gs
  induction gs with
  | nil =>
    intro res tr m tr2 h hres
    simp only [runGroups, Prod.mk.injEq] at h
    have h1 : res = m := by simpa using h.1
    rw [← h1]
    exact hres
  | cons g0 rest ih =>
    intro res tr m tr2 h hres
    obtain ⟨k, hs, incs⟩ := g0
    unfold runGroups at h
    cases hc : env.handle (hs.headD 0) hs id (incs.map (fun inc => (handlerKey inc).2)) none with
    | error e =>
      rw [hc] at h
      simp only [Prod.mk.injEq] at h
      exact absurd h.1 (by simp)
    | ok rs =>
      rw [hc] at h
      exact ih h (mergeResults_no_null hres incs rs)

lemma getMetadataT_ok {env : RouterEnv} {includes : List Str} {gs : List MetaGroup}
    (hg : gatherGroups env includes [] = .ok gs) (id : CharmURL) :
    getMetadataT env id includes = runGroups env id gs [] [] := by
  unfold getMetadataT
  rw [hg]

lemma getMetadataT_ok_gather {env : RouterEnv} {id : CharmURL} {includes : List Str}
    {m : List (Str × GoValue)} {trace : List BatchCall}
    (h : getMetadataT env id includes = (.ok m, trace)) :
    ∃ gs, gatherGroups env includes [] = .ok gs ∧ runGroups env id gs [] [] = (.ok m, trace) := by
  unfold getMetadataT at h
  cases hg : gatherGroups env includes [] with
  | error e =>
    rw [hg] at h
    simp only [Prod.mk.injEq] at h
    exact absurd h.1 (by simp)
  | ok gs =>
    rw [hg] at h
    exact ⟨gs, rfl, h⟩

/-- Members of the group list produced by the first loop are exactly the
ordered per-key groups of the include list. -/
lemma gather_member_eq {env : RouterEnv} {includes : List Str} {gs : List MetaGroup}
    (hg : gatherGroups env includes [] = .ok gs) {k : Nat} {hs : List Nat} {incs : List Str}
    (hmem : (k, hs, incs) ∈ gs) :
    hs = groupHandlers env includes k ∧ incs = groupIncludes env includes k := by
  have hnd := gather_keys_nodup (by simp) hg
  have h1 := lookupKey_mem hnd hmem
  have h2 := gather_lookup_none hg
    (show lookupKey ([] : List MetaGroup) k = none by simp [lookupKey])
  by_cases hgi : groupIncludes env includes k = []
  · rw [if_pos hgi] at h2
    rw [h1] at h2
    exact Option.noConfusion h2
  · rw [if_neg hgi] at h2
    rw [h1] at h2
    have h3 : (hs, incs) = (groupHandlers env includes k, groupIncludes env includes k) := by
      simpa using h2
    exact Prod.mk.inj h3

/-!  ## Claim C1: one batch invocation per grouping key -/

/-- **C1.**  For every include list passed to `GetMetadata` that completes
successfully, the trace of batch-operation invocations contains exactly
one invocation per distinct grouping key (the traced keys are
duplicate-free, and the key of every resolved include appears), and each
invocation receives all sibling handlers of its group and their sub-paths
in the order the include names were requested (`groupHandlers` /
`groupPaths` are the in-request-order projections of the include list),
with the group's first handler as receiver.  In particular two facet
names whose handlers share a grouping key produce one invocation of the
shared batch operation, not two. -/
theorem getMetadata_groups_once (env : RouterEnv) (id : CharmURL) (includes : List Str)
    (m : List (Str × GoValue)) (trace : List BatchCall)
    (h : getMetadataT env id includes = (.ok m, trace)) :
    (trace.map BatchCall.gkey).Nodup
    ∧ (∀ inc ∈ includes, ∀ k, incKey env inc = some k → k ∈ trace.map BatchCall.gkey)
    ∧ (∀ c ∈ trace,
        c.handlers = groupHandlers env includes c.gkey
        ∧ c.paths = groupPaths env includes c.gkey
        ∧ c.id = id ∧ c.recv = c.handlers.headD 0) := by
  obtain ⟨gs, hg, hrun⟩ := getMetadataT_ok_gather h
  have htr2 : trace = gs.map (mkCall id) := by simpa using runGroups_trace_ok hrun
  have hkeysnd := gather_keys_nodup (by simp) hg
  have hmapkeys : trace.map BatchCall.gkey = gs.map Prod.fst := by
    rw [htr2, List.map_map]
    rfl
  refine ⟨?_, ?_, ?_⟩
  · rw [hmapkeys]
    exact hkeysnd
  · intro inc hinc k hk
    rw [hmapkeys]
    have hmemI : inc ∈ groupIncludes env includes k := by
      unfold groupIncludes
      exact List.mem_filter.2 ⟨hinc, by simp [hk]⟩
    have h2 := gather_lookup_none hg
      (show lookupKey ([] : List MetaGroup) k = none by simp [lookupKey])
    rw [if_neg (by intro hq; rw [hq] at hmemI; simp at hmemI)] at h2
    exact lookupKey_some_mem h2
  · intro c hc
    rw [htr2] at hc
    obtain ⟨g, hgmem, rfl⟩ := List.mem_map.1 hc
    obtain ⟨k, hs, incs⟩ := g
    obtain ⟨hhs, hincs⟩ := gather_member_eq hg hgmem
    refine ⟨hhs, ?_, rfl, rfl⟩
    show incs.map (fun inc => (handlerKey inc).2) = groupPaths env includes k
    rw [hincs]
    rfl

/-- Witness for C1: in `envA` the facets `"s"` and `"h"` share grouping
key 5 and requesting both yields exactly one batch invocation with both
handlers and both (empty) sub-paths. -/
theorem getMetadata_groups_once_witness :
    getMetadataT envA 0 [strOf "s", strOf "h"] =
      (.ok [(strOf "s", vOK), (strOf "h", vOK)], [⟨5, 0, [0, 1], 0, [[], []], none⟩])
    ∧ ((([⟨5, 0, [0, 1], 0, [[], []], none⟩] : List BatchCall).map BatchCall.gkey).Nodup
      ∧ (∀ inc ∈ [strOf "s", strOf "h"], ∀ k, incKey envA inc = some k →
          k ∈ ([⟨5, 0, [0, 1], 0, [[], []], none⟩] : List BatchCall).map BatchCall.gkey)
      ∧ (∀ c ∈ ([⟨5, 0, [0, 1], 0, [[], []], none⟩] : List BatchCall),
          c.handlers = groupHandlers envA [strOf "s", strOf "h"] c.gkey
          ∧ c.paths = groupPaths envA [strOf "s", strOf "h"] c.gkey
          ∧ c.id = 0 ∧ c.recv = c.handlers.headD 0)) :=
  ⟨by decide,
    getMetadata_groups_once envA 0 [strOf "s", strOf "h"]
      [(strOf "s", vOK), (strOf "h", vOK)] [⟨5, 0, [0, 1], 0, [[], []], none⟩] (by decide)⟩

/-!  ## Claim C3: atomic group failure -/

/-- **C3.**  Group failure is atomic: whenever some group's batch
operation fails, `GetMetadata` returns the error of a failing group (the
first one reached) and surfaces no result map at all — neither partial
results of the failed group nor results of groups that succeeded. -/
theorem getMetadata_group_failure_atomic (env : RouterEnv) (id : CharmURL)
    (includes : List Str) (gs : List MetaGroup) (g : MetaGroup) (e : GoErr)
    (hg : gatherGroups env includes [] = .ok gs)
    (hmem : g ∈ gs)
    (herr : callOf env id g = .error e) :
    (∃ e2 g2, g2 ∈ gs ∧ callOf env id g2 = .error e2
      ∧ getMetadata env id includes = .error e2)
    ∧ (∀ m, getMetadata env id includes ≠ .ok m)
    ∧ ((∀ g2 ∈ gs, ∀ e2, callOf env id g2 = .error e2 → g2 = g) →
        getMetadata env id includes = .error e) := by
  obtain ⟨e2, g2, hg2, hc2, hres⟩ := @runGroups_first_error env id gs [] [] g e hmem herr
  have hgm : getMetadata env id includes = (runGroups env id gs [] []).1 := by
    unfold getMetadata
    rw [getMetadataT_ok hg id]
  refine ⟨⟨e2, g2, hg2, hc2, by rw [hgm, hres]⟩, ?_, ?_⟩
  · intro m hq
    rw [hgm, hres] at hq
    exact Except.noConfusion hq
  · intro huniq
    have hgg := huniq g2 hg2 e2 hc2
    rw [hgg, herr] at hc2
    have he : e = e2 := by simpa using hc2
    rw [hgm, hres, ← he]

/-- Witness for C3: in `envE` the single group `"s"` fails with a
collaborator error, and `GetMetadata` returns it with no results. -/
theorem getMetadata_group_failure_atomic_witness :
    gatherGroups envE [strOf "s"] [] = .ok [(5, [0], [strOf "s"])]
    ∧ callOf envE 0 (5, [0], [strOf "s"]) = .error (.collabErr (strOf "boom"))
    ∧ ((∃ e2 g2, g2 ∈ [(5, [0], [strOf "s"])] ∧ callOf envE 0 g2 = .error e2
        ∧ getMetadata envE 0 [strOf "s"] = .error e2)
      ∧ (∀ m, getMetadata envE 0 [strOf "s"] ≠ .ok m)
      ∧ ((∀ g2 ∈ [(5, [0], [strOf "s"])], ∀ e2, callOf envE 0 g2 = .error e2 →
            g2 = (5, [0], [strOf "s"])) →
          getMetadata envE 0 [strOf "s"] = .error (.collabErr (strOf "boom")))) :=
  ⟨by decide, by decide,
    getMetadata_group_failure_atomic envE 0 [strOf "s"] [(5, [0], [strOf "s"])]
      (5, [0], [strOf "s"]) (.collabErr (strOf "boom")) (by decide) (by decide) (by decide)⟩

/-!  ## Claim C6: the flags passed to batch operations -/

/-- **C6 (code behavior).**  Every batch-operation invocation that
`GetMetadata` makes passes a nil `flags` argument — never the request's
url query values.  (`GetMetadata(id, includes)` does not even receive the
request form; the call site is `g[0].Handle(g, id, paths, nil)` — this
contradicts the `Handle` documentation "flags holds all the url query
values", so the claim is recorded as a code bug.) -/
theorem getMetadata_flags_nil (env : RouterEnv) (id : CharmURL) (includes : List Str) :
    ∀ c ∈ (getMetadataT env id includes).2, c.flags = none := by
  intro c hc
  unfold getMetadataT at hc
  cases hg : gatherGroups env includes [] with
  | error e =>
    rw [hg] at hc
    simp at hc
  | ok gs =>
    rw [hg] at hc
    rcases runGroups_flags c hc with h1 | h1
    · simp at h1
    · exact h1

/-- Witness for C6: the one invocation made for `envA`'s shared group
carries nil flags. -/
theorem getMetadata_flags_nil_witness :
    (⟨5, 0, [0, 1], 0, [[], []], none⟩ : BatchCall) ∈
      (getMetadataT envA 0 [strOf "s", strOf "h"]).2
    ∧ (⟨5, 0, [0, 1], 0, [[], []], none⟩ : BatchCall).flags = none :=
  ⟨by decide,
    getMetadata_flags_nil envA 0 [strOf "s", strOf "h"] ⟨5, 0, [0, 1], 0, [[], []], none⟩
      (by decide)⟩

/-!  ## Claim C7: unrecognized metadata names -/

/-- **C7.**  Whenever the include list contains a name whose handler key
is not registered in the metadata-facet table (and it is the first such
name), `GetMetadata` fails the whole call with the error
`unrecognized metadata name "<include>"` naming that include, and no
group's batch operation is invoked (the trace is empty). -/
theorem getMetadata_unrecognized_name (env : RouterEnv) (id : CharmURL)
    (includes pre post : List Str) (inc : Str)
    (hsplit : includes = pre ++ inc :: post)
    (hpre : ∀ p ∈ pre, resolveH env p ≠ none)
    (hinc : resolveH env inc = none) :
    getMetadataT env id includes = (.error (.unrecognizedMetadataName inc), [])
    ∧ errMessage (.unrecognizedMetadataName inc) =
        strOf "unrecognized metadata name " ++ goQuote inc := by
  refine ⟨?_, rfl⟩
  unfold getMetadataT
  rw [hsplit, gather_error hpre hinc]

/-- Witness for C7: requesting `["s", "bogus"]` against `envA` (where
`"bogus"` is unregistered) fails with the unrecognized-name error and an
empty invocation trace. -/
theorem getMetadata_unrecognized_name_witness :
    ([strOf "s", strOf "bogus"] = [strOf "s"] ++ strOf "bogus" :: [])
    ∧ (∀ p ∈ [strOf "s"], resolveH envA p ≠ none)
    ∧ resolveH envA (strOf "bogus") = none
    ∧ (getMetadataT envA 0 [strOf "s", strOf "bogus"] =
        (.error (.unrecognizedMetadataName (strOf "bogus")), [])
      ∧ errMessage (.unrecognizedMetadataName (strOf "bogus")) =
          strOf "unrecognized metadata name " ++ goQuote (strOf "bogus")) :=
  ⟨by decide, by decide, by decide,
    getMetadata_unrecognized_name envA 0 [strOf "s", strOf "bogus"] [strOf "s"] []
      (strOf "bogus") (by decide) (by decide) (by decide)⟩

/-!  ## Claim C2: null-equivalent results are omitted -/

/-- **C2 counterexample.**  The claim fails for include lists with
duplicate names: requesting the facet `"s"` twice against `envB`, whose
batch operation answers the two (identical) sub-paths with the *distinct*
non-null values `typed 0` and `typed 1`, produces an output map binding
`"s"` only to the later value `typed 1`; the non-null result `typed 0`
returned for the first occurrence is present under no key at all, so
"every non-null-equivalent result is present under the original include
string the caller supplied" is violated. -/
theorem getMetadata_null_omission_cex :
    envB.handle 0 [0, 0] 0 [[], []] none =
      .ok [.typed .otherKind false 0, .typed .otherKind false 1]
    ∧ getMetadata envB 0 [strOf "s", strOf "s"] =
        .ok [(strOf "s", .typed .otherKind false 1)]
    ∧ isNull (.typed .otherKind false 0) = false
    ∧ GoValue.typed .otherKind false 0 ≠ .typed .otherKind false 1
    ∧ lookupKey [(strOf "s", GoValue.typed .otherKind false 1)] (strOf "s") ≠
        some (.typed .otherKind false 0) := by decide

/-- **C2 (amended).**  For *duplicate-free* include lists on which
`GetMetadata` succeeds: no key of the output map is ever bound to a
null-equivalent value, and for every group and every position `i` of the
group's include list, if the batch operation's `i`-th result is
null-equivalent the original include string is entirely absent from the
output map, and otherwise it is bound to exactly that result.  (With
duplicate include names the later occurrence's result overwrites the
earlier one — the documented map behavior — as the counterexample
shows.) -/
theorem getMetadata_null_omission (env : RouterEnv) (id : CharmURL) (includes : List Str)
    (m : List (Str × GoValue)) (trace : List BatchCall)
    (hnodup : includes.Nodup)
    (h : getMetadataT env id includes = (.ok m, trace)) :
    (∀ q v, lookupKey m q = some v → isNull v = false)
    ∧ (∀ gs, gatherGroups env includes [] = .ok gs →
        ∀ k hs incs, (k, hs, incs) ∈ gs →
        ∀ rs, callOf env id (k, hs, incs) = .ok rs →
        ∀ (i : Nat) (inc : Str) (r : GoValue), incs[i]? = some inc → rs[i]? = some r →
          (isNull r = true → lookupKey m inc = none)
          ∧ (isNull r = false → lookupKey m inc = some r)) := by
  obtain ⟨gs0, hg0, hrun0⟩ := getMetadataT_ok_gather h
  constructor
  · refine runGroups_no_null hrun0 ?_
    intro q v hv
    simp [lookupKey] at hv
  · intro gs hg k hs incs hmem rs hcall i inc r hinc hr
    have hgs : gs = gs0 := by
      rw [hg] at hg0
      simpa using hg0
    subst hgs
    have hkeys := gather_keys_nodup (by simp) hg
    obtain ⟨hhs, hincs⟩ := gather_member_eq hg hmem
    have hndincs : incs.Nodup := by
      rw [hincs]
      unfold groupIncludes
      exact List.Nodup.filter _ hnodup
    have hdisj : ∀ g ∈ gs, inc ∈ g.2.2 → g.1 = k := by
      intro g hgmem hin
      obtain ⟨k2, hs2, incs2⟩ := g
      obtain ⟨hhs2, hincs2⟩ := gather_member_eq hg hgmem
      have h1 : incKey env inc = some k2 := by
        rw [hincs2] at hin
        unfold groupIncludes at hin
        have h3 := (List.mem_filter.1 hin).2
        simpa using h3
      have h2 : incKey env inc = some k := by
        have hin2 : inc ∈ incs := List.getElem?_mem hinc
        rw [hincs] at hin2
        unfold groupIncludes at hin2
        have h3 := (List.mem_filter.1 hin2).2
        simpa using h3
      show k2 = k
      rw [h1] at h2
      simpa using h2
    have hat := runGroups_lookup_at hrun0 hkeys hmem hndincs hcall hinc hr hdisj
    rw [show lookupKey ([] : List (Str × GoValue)) inc = none from rfl] at hat
    constructor
    · intro hn
      rw [hat, if_pos hn]
    · intro hn
      rw [hat, if_neg (by simp [hn])]

/-- Witness for C2: in `envF`, requesting the distinct facets `"s"` and
`"n"` (whose shared batch operation returns a non-null value for the
first and the nil interface for the second) yields a map binding `"s"`
and entirely omitting `"n"`. -/
theorem getMetadata_null_omission_witness :
    ([strOf "s", strOf "n"] : List Str).Nodup
    ∧ getMetadataT envF 0 [strOf "s", strOf "n"] =
        (.ok [(strOf "s", vOK)], [⟨5, 0, [0, 1], 0, [[], []], none⟩])
    ∧ ((∀ q v, lookupKey [(strOf "s", vOK)] q = some v → isNull v = false)
      ∧ (∀ gs, gatherGroups envF [strOf "s", strOf "n"] [] = .ok gs →
          ∀ k hs incs, (k, hs, incs) ∈ gs →
          ∀ rs, callOf envF 0 (k, hs, incs) = .ok rs →
          ∀ (i : Nat) (inc : Str) (r : GoValue), incs[i]? = some inc → rs[i]? = some r →
            (isNull r = true → lookupKey [(strOf "s", vOK)] inc = none)
            ∧ (isNull r = false → lookupKey [(strOf "s", vOK)] inc = some r))) :=
  ⟨by decide, by decide,
    getMetadata_null_omission envF 0 [strOf "s", strOf "n"] [(strOf "s", vOK)]
      [⟨5, 0, [0, 1], 0, [[], []], none⟩] (by decide) (by decide)⟩

/-!  ## Bulk-endpoint lemmas -/

lemma bulkLoop_cons_omitted {env : RouterEnv} {reqPath : Str} {form2 : Form} {s : Str}
    (h : bulkClassify env reqPath form2 s = .omitted) (rest : List Str)
    (res : List (Str × MetaResponse)) :
    bulkLoop env reqPath form2 (s :: rest) res = bulkLoop env reqPath form2 rest res := by
  conv_lhs => unfold bulkLoop
  rw [h]

lemma bulkLoop_cons_failed {env : RouterEnv} {reqPath : Str} {form2 : Form} {s : Str}
    {e : GoErr} (h : bulkClassify env reqPath form2 s = .failedStep e) (rest : List Str)
    (res : List (Str × MetaResponse)) :
    bulkLoop env reqPath form2 (s :: rest) res = .error e := by
  conv_lhs => unfold bulkLoop
  rw [h]

lemma bulkLoop_cons_kept {env : RouterEnv} {reqPath : Str} {form2 : Form} {s : Str}
    {resp : MetaResponse} (h : bulkClassify env reqPath form2 s = .kept resp)
    (rest : List Str) (res : List (Str × MetaResponse)) :
    bulkLoop env reqPath form2 (s :: rest) res =
      bulkLoop env reqPath form2 rest (setKey res s resp) := by
  conv_lhs => unfold bulkLoop
  rw [h]

lemma bulkLoop_ok {env : RouterEnv} {reqPath : Str} {form2 : Form} :
    ∀ {ids : List Str} {res : List (Str × MetaResponse)},
      (∀ s ∈ ids, ∀ e, bulkClassify env reqPath form2 s ≠ .failedStep e) →
      ∃ m, bulkLoop env reqPath form2 ids res = .ok m
        ∧ ∀ q, lookupKey m q =
            if q ∈ ids ∧ keptOf env reqPath form2 q ≠ none
            then keptOf env reqPath form2 q
            else lookupKey res q := by
  intro ids
  induction ids with
  | nil =>
    intro res _
    refine ⟨res, rfl, ?_⟩
    intro q
    rw [if_neg (by simp)]
  | cons s rest ih =>
    intro res hfail
    cases hcl : bulkClassify env reqPath form2 s with
    | failedStep e => exact absurd hcl (hfail s (List.mem_cons_self _ _) e)
    | omitted =>
      obtain ⟨m, hm, hl⟩ := ih (fun t ht e => hfail t (List.mem_cons_of_mem _ ht) e)
      refine ⟨m, by rw [bulkLoop_cons_omitted hcl]; exact hm, ?_⟩
      intro q
      rw [hl q]
      have hkq : keptOf env reqPath form2 s = none := by
        unfold keptOf
        rw [hcl]
      by_cases hq : q = s
      · subst hq
        rw [if_neg (by simp [hkq]), if_neg (by simp [hkq])]
      · by_cases hmem : q ∈ rest ∧ keptOf env reqPath form2 q ≠ none
        · rw [if_pos hmem, if_pos ⟨List.mem_cons_of_mem _ hmem.1, hmem.2⟩]
        · rw [if_neg hmem, if_neg ?_]
          intro hc
          exact hmem ⟨(List.mem_cons.1 hc.1).resolve_left hq, hc.2⟩
    | kept resp =>
      obtain ⟨m, hm, hl⟩ := ih (fun t ht e => hfail t (List.mem_cons_of_mem _ ht) e)
      refine ⟨m, by rw [bulkLoop_cons_kept hcl]; exact hm, ?_⟩
      intro q
      rw [hl q]
      have hkq : keptOf env reqPath form2 s = some resp := by
        unfold keptOf
        rw [hcl]
      by_cases hq : q = s
      · subst hq
        by_cases hmem : q ∈ rest ∧ keptOf env reqPath form2 q ≠ none
        · rw [if_pos hmem, if_pos ⟨List.mem_cons_self _ _, hmem.2⟩]
        · rw [if_neg hmem, setKey_lookup_same,
            if_pos (show q ∈ q :: rest ∧ keptOf env reqPath form2 q ≠ none from
              ⟨List.mem_cons_self _ _, by simp [hkq]⟩), hkq]
      · by_cases hmem : q ∈ rest ∧ keptOf env reqPath form2 q ≠ none
        · rw [if_pos hmem, if_pos ⟨List.mem_cons_of_mem _ hmem.1, hmem.2⟩]
        · rw [if_neg hmem, if_neg ?_, setKey_lookup_ne _ _ _ hq]
          intro hc
          exact hmem ⟨(List.mem_cons.1 hc.1).resolve_left hq, hc.2⟩

lemma bulkLoop_first_error {env : RouterEnv} {reqPath : Str} {form2 : Form} :
    ∀ {pre : List Str} {s : Str} {post : List Str} {res : List (Str × MetaResponse)}
      {e : GoErr},
      (∀ t ∈ pre, ∀ e2, bulkClassify env reqPath form2 t ≠ .failedStep e2) →
      bulkClassify env reqPath form2 s = .failedStep e →
      bulkLoop env reqPath form2 (pre ++ s :: post) res = .error e := by
  intro pre
  induction pre with
  | nil =>
    intro s post res e _ hs
    rw [List.nil_append, bulkLoop_cons_failed hs]
  | cons t pre ih =>
    intro s post res e hpre hs
    rw [List.cons_append]
    cases hcl : bulkClassify env reqPath form2 t with
    | failedStep e2 => exact absurd hcl (hpre t (List.mem_cons_self _ _) e2)
    | omitted =>
      rw [bulkLoop_cons_omitted hcl]
      exact ih (fun u hu e2 => hpre u (List.mem_cons_of_mem _ hu) e2) hs
    | kept resp =>
      rw [bulkLoop_cons_kept hcl]
      exact ih (fun u hu e2 => hpre u (List.mem_cons_of_mem _ hu) e2) hs

lemma bulkLoop_ok_no_fail {env : RouterEnv} {reqPath : Str} {form2 : Form} :
    ∀ {ids : List Str} {res : List (Str × MetaResponse)} {m : List (Str × MetaResponse)},
      bulkLoop env reqPath form2 ids res = .ok m →
      ∀ s ∈ ids, ∀ e, bulkClassify env reqPath form2 s ≠ .failedStep e := by
  intro ids
  induction ids with
  | nil =>
    intro res m _ s hs
    simp at hs
  | cons t rest ih =>
    intro res m h s hs e
    cases hcl : bulkClassify env reqPath form2 t with
    | failedStep e2 =>
      rw [bulkLoop_cons_failed hcl] at h
      exact Except.noConfusion h
    | omitted =>
      rw [bulkLoop_cons_omitted hcl] at h
      rcases List.mem_cons.1 hs with h1 | h1
      · rw [h1, hcl]
        exact fun hq => BulkStep.noConfusion hq
      · exact ih h s h1 e
    | kept resp =>
      rw [bulkLoop_cons_kept hcl] at h
      rcases List.mem_cons.1 hs with h1 | h1
      · rw [h1, hcl]
        exact fun hq => BulkStep.noConfusion hq
      · exact ih h s h1 e

lemma bulkLoop_keys_nodup {env : RouterEnv} {reqPath : Str} {form2 : Form} :
    ∀ {ids : List Str} {res : List (Str × MetaResponse)} {m : List (Str × MetaResponse)},
      (res.map Prod.fst).Nodup →
      bulkLoop env reqPath form2 ids res = .ok m →
      (m.map Prod.fst).Nodup := by
  intro ids
  induction ids with
  | nil =>
    intro res m hnd h
    have h1 : res = m := by simpa [bulkLoop] using h
    rw [← h1]
    exact hnd
  | cons t rest ih =>
    intro res m hnd h
    cases hcl : bulkClassify env reqPath form2 t with
    | failedStep e2 =>
      rw [bulkLoop_cons_failed hcl] at h
      exact Except.noConfusion h
    | omitted =>
      rw [bulkLoop_cons_omitted hcl] at h
      exact ih hnd h
    | kept resp =>
      rw [bulkLoop_cons_kept hcl] at h
      exact ih (setKey_keys_nodup hnd t resp) h

lemma serveBulkMeta_eq {env : RouterEnv} {reqPath : Str} {form : Form}
    (hids : formGet form (strOf "id") ≠ []) :
    serveBulkMeta env reqPath form =
      bulkLoop env reqPath (formDelete form (strOf "id")) (formGet form (strOf "id")) [] := by
  unfold serveBulkMeta
  rw [if_neg hids]

/-!  ## Claim C4: bulk multi-id omission semantics -/

/-- **C4 counterexample.**  The "exactly N−1 entries" consequence fails
for duplicate id strings: with supplied ids `["a", "a", "b"]` against
`envC` — where `"b"` parses but fails resolution with `ErrNotFound` and
both copies of `"a"` succeed — exactly one of the three supplied ids
fails to resolve and the rest succeed, yet the bulk call returns a map of
1 entry, not 3 − 1 = 2. -/
theorem serveBulkMeta_count_cex :
    formGet [(strOf "id", [strOf "a", strOf "a", strOf "b"])] (strOf "id") =
      [strOf "a", strOf "a", strOf "b"]
    ∧ envC.parseURL (strOf "b") = .ok 1
    ∧ envC.resolveURL 1 = .error .errNotFound
    ∧ bulkClassify envC (strOf "/s")
        (formDelete [(strOf "id", [strOf "a", strOf "a", strOf "b"])] (strOf "id"))
        (strOf "a") = .kept (.single vOK)
    ∧ serveBulkMeta envC (strOf "/s") [(strOf "id", [strOf "a", strOf "a", strOf "b"])] =
        .ok [(strOf "a", .single vOK)]
    ∧ [(strOf "a", MetaResponse.single vOK)].length ≠ 3 - 1 := by decide

/-- **C4 (amended).**  For the bulk multi-id endpoint: (a) when no
supplied id classifies as failing, the call succeeds and the output binds
exactly the ids whose step was kept (ids omitted by a NotFound
resolution or an ErrDataNotFound dispatch are absent, with no error);
(b) if some id's step fails (any parse error, non-NotFound resolution
error, or non-DataNotFound dispatch error) and the ids before it do not
fail, the whole request aborts with that error; (c) when the supplied ids
are *distinct* and exactly one of them fails to resolve with NotFound
while all others are kept, the output map has exactly N−1 entries and
the call succeeds. -/
theorem serveBulkMeta_omission (env : RouterEnv) (reqPath : Str) (form : Form) :
    (formGet form (strOf "id") ≠ [] →
      (∀ s ∈ formGet form (strOf "id"), ∀ e,
        bulkClassify env reqPath (formDelete form (strOf "id")) s ≠ .failedStep e) →
      ∃ m, serveBulkMeta env reqPath form = .ok m
        ∧ ∀ q, lookupKey m q =
            if q ∈ formGet form (strOf "id")
              ∧ keptOf env reqPath (formDelete form (strOf "id")) q ≠ none
            then keptOf env reqPath (formDelete form (strOf "id")) q
            else none)
    ∧ (∀ pre s post e, formGet form (strOf "id") = pre ++ s :: post →
        (∀ t ∈ pre, ∀ e2,
          bulkClassify env reqPath (formDelete form (strOf "id")) t ≠ .failedStep e2) →
        bulkClassify env reqPath (formDelete form (strOf "id")) s = .failedStep e →
        serveBulkMeta env reqPath form = .error e)
    ∧ (∀ bad, (formGet form (strOf "id")).Nodup → bad ∈ formGet form (strOf "id") →
        (∃ u, env.parseURL bad = .ok u ∧ env.resolveURL u = .error .errNotFound) →
        (∀ s ∈ formGet form (strOf "id"), s ≠ bad →
          ∃ r, bulkClassify env reqPath (formDelete form (strOf "id")) s = .kept r) →
        ∃ m, serveBulkMeta env reqPath form = .ok m
          ∧ m.length + 1 = (formGet form (strOf "id")).length) := by
  refine ⟨?_, ?_, ?_⟩
  · intro hne hnofail
    obtain ⟨m, hm, hl⟩ := bulkLoop_ok hnofail
    refine ⟨m, by rw [serveBulkMeta_eq hne]; exact hm, ?_⟩
    intro q
    rw [hl q]
    by_cases hc : q ∈ formGet form (strOf "id")
      ∧ keptOf env reqPath (formDelete form (strOf "id")) q ≠ none
    · rw [if_pos hc, if_pos hc]
    · rw [if_neg hc, if_neg hc]
      rfl
  · intro pre s post e hsplit hpre hs
    have hne : formGet form (strOf "id") ≠ [] := by
      rw [hsplit]
      simp
    rw [serveBulkMeta_eq hne, hsplit]
    exact bulkLoop_first_error hpre hs
  · intro bad hnd hbadmem hbadres hrest
    obtain ⟨u, hpu, hru⟩ := hbadres
    have hne : formGet form (strOf "id") ≠ [] := List.ne_nil_of_mem hbadmem
    have hbadcl : bulkClassify env reqPath (formDelete form (strOf "id")) bad = .omitted := by
      unfold bulkClassify
      rw [hpu]
      dsimp only
      rw [hru]
    have hkbad : keptOf env reqPath (formDelete form (strOf "id")) bad = none := by
      unfold keptOf
      rw [hbadcl]
    have hnofail : ∀ s ∈ formGet form (strOf "id"), ∀ e,
        bulkClassify env reqPath (formDelete form (strOf "id")) s ≠ .failedStep e := by
      intro s hs e
      by_cases hsb : s = bad
      · rw [hsb, hbadcl]
        exact fun hq => BulkStep.noConfusion hq
      · obtain ⟨r, hr⟩ := hrest s hs hsb
        rw [hr]
        exact fun hq => BulkStep.noConfusion hq
    obtain ⟨m, hm, hl⟩ := bulkLoop_ok hnofail
    refine ⟨m, by rw [serveBulkMeta_eq hne]; exact hm, ?_⟩
    have hknodup : (m.map Prod.fst).Nodup := bulkLoop_keys_nodup (by simp) hm
    have hmemiff : ∀ q, q ∈ m.map Prod.fst ↔
        (q ∈ formGet form (strOf "id")
          ∧ keptOf env reqPath (formDelete form (strOf "id")) q ≠ none) := by
      intro q
      constructor
      · intro hq
        by_contra hc
        have hnone : lookupKey m q = none := by
          rw [hl q, if_neg hc]
          rfl
        exact ((lookupKey_eq_none m q).1 hnone) hq
      · intro hc
        cases hk : keptOf env reqPath (formDelete form (strOf "id")) q with
        | none => exact absurd hk hc.2
        | some r =>
          have hsome : lookupKey m q = some r := by
            rw [hl q, if_pos hc, hk]
          exact lookupKey_some_mem hsome
    have hiff2 : ∀ q ∈ formGet form (strOf "id"),
        (keptOf env reqPath (formDelete form (strOf "id")) q ≠ none ↔ q ≠ bad) := by
      intro q hq
      constructor
      · intro h1 h2
        rw [h2] at h1
        exact h1 hkbad
      · intro h1
        obtain ⟨r, hr⟩ := hrest q hq h1
        intro h2
        rw [show keptOf env reqPath (formDelete form (strOf "id")) q = some r by
          unfold keptOf; rw [hr]] at h2
        exact Option.noConfusion h2
    have hperm : (m.map Prod.fst).Perm
        ((formGet form (strOf "id")).filter (fun s => s != bad)) := by
      refine (List.perm_ext_iff_of_nodup hknodup (List.Nodup.filter _ hnd)).2 ?_
      intro a
      rw [hmemiff a, List.mem_filter]
      constructor
      · rintro ⟨h1, h2⟩
        exact ⟨h1, by simpa using (hiff2 a h1).1 h2⟩
      · rintro ⟨h1, h2⟩
        exact ⟨h1, (hiff2 a h1).2 (by simpa using h2)⟩
    have hlen := hperm.length_eq
    rw [List.length_map] at hlen
    rw [← List.Nodup.erase_eq_filter hnd bad] at hlen
    rw [List.length_erase_of_mem hbadmem] at hlen
    have hpos : 0 < (formGet form (strOf "id")).length := List.length_pos_of_mem hbadmem
    omega

/-- Witness for C4: against `envC` with supplied ids `["a", "b"]` (all
distinct), `"b"` fails resolution with NotFound and `"a"` is kept, and
the call returns a 1-entry map (2 − 1). -/
theorem serveBulkMeta_omission_witness :
    ((formGet [(strOf "id", [strOf "a", strOf "b"])] (strOf "id")).Nodup
      ∧ strOf "b" ∈ formGet [(strOf "id", [strOf "a", strOf "b"])] (strOf "id")
      ∧ envC.parseURL (strOf "b") = .ok 1
      ∧ envC.resolveURL 1 = .error .errNotFound)
    ∧ (∃ m, serveBulkMeta envC (strOf "/s") [(strOf "id", [strOf "a", strOf "b"])] = .ok m
        ∧ m.length + 1 =
            (formGet [(strOf "id", [strOf "a", strOf "b"])] (strOf "id")).length) :=
  ⟨⟨by decide, by decide, by decide, by decide⟩,
    (serveBulkMeta_omission envC (strOf "/s") [(strOf "id", [strOf "a", strOf "b"])]).2.2
      (strOf "b") (by decide) (by decide) ⟨1, by decide, by decide⟩
      (by
        intro s hs hsb
        refine ⟨.single vOK, ?_⟩
        have hs2 : s ∈ [strOf "a", strOf "b"] := hs
        have hsa : s = strOf "a" := by
          rcases List.mem_cons.1 hs2 with h1 | h1
          · exact h1
          · have h2 : s = strOf "b" := by simpa using h1
            exact absurd h2 hsb
        rw [hsa]
        decide)⟩

/-!  ## Claim C5: bulk response keyed by original id strings -/

/-- **C5.**  The bulk response map is keyed by the original,
caller-supplied identifier strings exactly as sent (every key of a
successful response is one of the supplied `id` values); each string
occurs as a key at most once (equal supplied strings collapse into a
single entry — "collisions", with the last occurrence's assignment
winning, which by determinism of the dispatch carries the same result);
and the entry of each kept id is that id's own metadata result. -/
theorem serveBulkMeta_original_keys (env : RouterEnv) (reqPath : Str) (form : Form)
    (m : List (Str × MetaResponse))
    (h : serveBulkMeta env reqPath form = .ok m) :
    (∀ k v, (k, v) ∈ m → k ∈ formGet form (strOf "id"))
    ∧ (m.map Prod.fst).Nodup
    ∧ (∀ s ∈ formGet form (strOf "id"), ∀ r,
        bulkClassify env reqPath (formDelete form (strOf "id")) s = .kept r →
        lookupKey m s = some r) := by
  by_cases hne : formGet form (strOf "id") = []
  · exfalso
    unfold serveBulkMeta at h
    rw [if_pos hne] at h
    exact Except.noConfusion h
  · rw [serveBulkMeta_eq hne] at h
    have hnofail := bulkLoop_ok_no_fail h
    obtain ⟨m2, hm2, hl⟩ := bulkLoop_ok hnofail
    rw [hm2] at h
    have hmeq : m2 = m := by simpa using h
    rw [hmeq] at hm2 hl
    have hknodup : (m.map Prod.fst).Nodup := bulkLoop_keys_nodup (by simp) hm2
    refine ⟨?_, hknodup, ?_⟩
    · intro k v hkv
      have hsome : lookupKey m k = some v := lookupKey_mem hknodup hkv
      by_contra hq
      have hnone : lookupKey m k = none := by
        rw [hl k, if_neg (fun hc => hq hc.1)]
        rfl
      rw [hsome] at hnone
      exact Option.noConfusion hnone
    · intro s hs r hr
      have hk : keptOf env reqPath (formDelete form (strOf "id")) s = some r := by
        unfold keptOf
        rw [hr]
      rw [hl s, if_pos ⟨hs, by simp [hk]⟩, hk]

/-- Witness for C5: the successful `envC` bulk call over ids
`["a", "a", "b"]` is keyed by the caller's strings, duplicate-free, and
binds `"a"` to its own dispatch result. -/
theorem serveBulkMeta_original_keys_witness :
    serveBulkMeta envC (strOf "/s") [(strOf "id", [strOf "a", strOf "a", strOf "b"])] =
      .ok [(strOf "a", .single vOK)]
    ∧ ((∀ k v, (k, v) ∈ [(strOf "a", MetaResponse.single vOK)] →
          k ∈ formGet [(strOf "id", [strOf "a", strOf "a", strOf "b"])] (strOf "id"))
      ∧ (([(strOf "a", MetaResponse.single vOK)].map Prod.fst).Nodup)
      ∧ (∀ s ∈ formGet [(strOf "id", [strOf "a", strOf "a", strOf "b"])] (strOf "id"), ∀ r,
          bulkClassify envC (strOf "/s")
            (formDelete [(strOf "id", [strOf "a", strOf "a", strOf "b"])] (strOf "id")) s =
            .kept r →
          lookupKey [(strOf "a", MetaResponse.single vOK)] s = some r)) :=
  ⟨by decide,
    serveBulkMeta_original_keys envC (strOf "/s")
      [(strOf "id", [strOf "a", strOf "a", strOf "b"])]
      [(strOf "a", .single vOK)] (by decide)⟩

/-!  ## Claim C8: single-identifier meta/<name> with an unregistered name -/

/-- **C8 counterexample.**  A single-identifier request for `meta/bogus`
with `"bogus"` unregistered does *not* produce a Bad-Request-class
"unrecognized metadata name" error: `serveMeta` returns the router's
`ErrNotFound` sentinel, whose message is `"not found"` and does not
contain `unrecognized metadata name "bogus"`.  (The unrecognized-name
error arises only from the include list of `meta/any` — see C7.) -/
theorem serveMeta_unregistered_cex :
    serveMeta envD 0 (strOf "/bogus") [] = .error .errNotFound
    ∧ errMessage .errNotFound = strOf "not found"
    ∧ hasSub (strOf "unrecognized metadata name " ++ goQuote (strOf "bogus"))
        (errMessage .errNotFound) = false
    ∧ GoErr.errNotFound ≠ .unrecognizedMetadataName (strOf "bogus") := by decide

/-- **C8 (amended).**  A single-identifier request for `meta/<name>`
where `<name>` is not a registered facet key (and is neither empty nor
the special name `any`) returns the NotFound error `ErrNotFound`
(message "not found", surfaced as 404), not a Bad-Request
"unrecognized metadata name" error. -/
theorem serveMeta_unregistered_notfound (env : RouterEnv) (id : CharmURL)
    (reqPath : Str) (form : Form)
    (hk1 : (handlerKey reqPath).1 ≠ [])
    (hk2 : (handlerKey reqPath).1 ≠ strOf "any")
    (hk3 : lookupKey env.meta (handlerKey reqPath).1 = none) :
    serveMeta env id reqPath form = .error .errNotFound := by
  unfold serveMeta
  rw [if_neg hk1, if_neg hk2, hk3]

/-- Witness for C8 at the concrete request path `/bogus` against the
empty registry. -/
theorem serveMeta_unregistered_notfound_witness :
    (handlerKey (strOf "/bogus")).1 ≠ []
    ∧ (handlerKey (strOf "/bogus")).1 ≠ strOf "any"
    ∧ lookupKey envD.meta (handlerKey (strOf "/bogus")).1 = none
    ∧ serveMeta envD 0 (strOf "/bogus") [] = .error .errNotFound :=
  ⟨by decide, by decide, by decide,
    serveMeta_unregistered_notfound envD 0 (strOf "/bogus") [] (by decide) (by decide)
      (by decide)⟩
